import Mathlib

/-!
ncmdump: a verification development of `main.go`.

The program logs in to an Orion NCM console, lists the managed nodes and
downloads the stored configuration of every node that has one.  This file
embeds the functions of `main.go` as Lean definitions and proves properties
of them.

Conventions of the embedding.

* A Go `string` is a sequence of bytes: `GoString := List Nat`, each element
  a byte value.  No definition depends on the bound `< 256`, so every result
  holds for every Go string, valid UTF-8 or not.
* A run-time panic (index out of range, failed type assertion, nil
  dereference) is a value `Except.error p`.  The program has no `recover`,
  so a panic that reaches `main` ends the process.
* Library code that is not part of the repository (`encoding/json`,
  `gabs`, `x/net/html`) appears through the values it hands to `main.go`:
  decoded JSON values and token sequences.  A document has finitely many
  tokens.
* The login (`ConnectOrionServer`) is not embedded: the functions below take
  the cookies it returns as the argument `Session`.
* A run is recorded as a list of events: the calls of the functions of
  `main.go`, the HTTP requests, the lines printed and the files written.
-/

namespace NcmDump

/-! ## Strings -/

/-- A Go string: its bytes in order. -/
abbrev GoString := List Nat

/-- The bytes of an ASCII literal (used to write the program's string
constants; every literal of `main.go` is ASCII). -/
def ascii (s : String) : GoString := s.toList.map Char.toNat

/-- Go `strings.Replace(s, old, new, -1)` for a one-byte `old`: every
occurrence of the byte `old` is replaced by `new`, left to right. -/
def stringsReplaceByte (s : GoString) (old : Nat) (new : GoString) : GoString :=
  match s with
  | [] => []
  | c :: cs =>
    if c = old then new ++ stringsReplaceByte cs old new
    else c :: stringsReplaceByte cs old new

/-- The function `stringCleaning` of `main.go` (lines 41-47): the three
replacements of `[` (91), `]` (93) and the double quote (34) by the empty
string, in that order. -/
def stringCleaning (userString : GoString) : GoString :=
  let value := userString
  let value := stringsReplaceByte value 91 []
  let value := stringsReplaceByte value 93 []
  let value := stringsReplaceByte value 34 []
  value


/-! ## Numbers

`encoding/json` decodes every JSON number into a `float64`; `main.go` turns
such a value back into an `int` and prints it with `strconv.Itoa`. -/

/-- A finite IEEE-754 binary64 value, `(-1)^neg * mant * 2^exp`.  Decoding
JSON yields finite values only. -/
structure Float64 where
  neg : Bool
  mant : Nat
  exp : Int
deriving DecidableEq, Repr

/-- Auxiliary for `bitLen`: the recursion on the number of halvings left. -/
def bitLenAux : Nat → Nat → Nat
  | 0, _ => 0
  | fuel + 1, n => if n = 0 then 0 else bitLenAux fuel (n / 2) + 1

/-- Go `bits.Len`: the number of binary digits of `n` (0 for 0). -/
def bitLen (n : Nat) : Nat := bitLenAux n n

/-- The `float64` that `strconv.ParseFloat`, and so `encoding/json`, gives for
a JSON number whose exact value is the natural number `n` (written `5`, `5.0`,
`50e-1`, ...): `n` rounded to 53 significant bits, ties to even.  `none`
when the rounded value is not finite; the decoder then rejects the document. -/
def float64OfNat (n : Nat) : Option Float64 :=
  let sh := bitLen n - 53
  let q := n / 2 ^ sh
  let r := n % 2 ^ sh
  let m := if 2 ^ sh < 2 * r ∨ (2 * r = 2 ^ sh ∧ q % 2 = 1) then q + 1 else q
  if m * 2 ^ sh < 2 ^ 1024 then some ⟨false, m, sh⟩ else none

/-- The Go conversion `int(f)` of a `float64` on a 64-bit platform: the
fraction is discarded (truncation towards zero).  When the truncated value
does not fit an `int64` the Go specification leaves the result to the
implementation; the value used here, `-2^63`, is the one of amd64. -/
def float64ToInt (f : Float64) : Int :=
  let mag : Nat :=
    if 0 ≤ f.exp then f.mant * 2 ^ f.exp.toNat else f.mant / 2 ^ (-f.exp).toNat
  let v : Int := if f.neg then -(mag : Int) else (mag : Int)
  if -(2 : Int) ^ 63 ≤ v ∧ v < (2 : Int) ^ 63 then v else -(2 : Int) ^ 63

/-- The decimal digits of a natural number, as bytes. -/
def decimal (n : Nat) : GoString := (Nat.toDigits 10 n).map Char.toNat

/-- Go `strconv.Itoa`. -/
def Itoa (i : Int) : GoString :=
  if i < 0 then 45 :: decimal i.natAbs else decimal i.toNat

/-! ## JSON values and the gabs container -/

/-- A value as `encoding/json` decodes it into an `interface{}`: `nil`,
`bool`, `float64`, `string`, `[]interface{}` or `map[string]interface{}`.
A map is given by a list of bindings in which the first binding of a key is
the one that counts.  A `*gabs.Container` is modelled by the value it wraps;
the nil container and a container of `nil` behave alike under every method
used by `main.go` and are both `JSON.null`. -/
inductive JSON where
  | null
  | bool (b : Bool)
  | number (f : Float64)
  | string (s : GoString)
  | array (elems : List JSON)
  | object (fields : List (GoString × JSON))

/-- The two pieces of `encoding/json`'s encoder that are left open: the
shortest decimal form of a `float64` (`strconv.AppendFloat`), and how the
encoder of strings goes on from the first byte that it does not copy as it
is (a quote, a backslash, `<`, `>`, `&`, a control byte, a byte of a
multi-byte or malformed UTF-8 sequence). -/
structure Encoder where
  formatFloat : Float64 → GoString
  escapeRest : GoString → GoString

/-- A byte that `encoding/json` copies unchanged into a quoted string:
printable ASCII other than `"`, `\`, `<`, `>`, `&`. -/
def isPlainByte (c : Nat) : Bool :=
  decide (32 ≤ c) && decide (c < 127) && c != 34 && c != 92 && c != 60 && c != 62 && c != 38

/-- The bytes `encoding/json` writes between the quotes for the string `s`:
the plain bytes are copied one by one; from the first other byte on the
result is left to `enc.escapeRest`. -/
def escapeString (enc : Encoder) : GoString → GoString
  | [] => []
  | c :: cs => if isPlainByte c then c :: escapeString enc cs else enc.escapeRest (c :: cs)

/-- Byte-wise lexicographic order on strings (Go `<=` on strings). -/
def bytesLE : GoString → GoString → Bool
  | [], _ => true
  | _ :: _, [] => false
  | a :: as, b :: bs => decide (a < b) || (a == b && bytesLE as bs)

/-- The bindings of a map: for every key its first binding. -/
def firstBindings : List (GoString × GoString) → List (GoString × GoString)
  | [] => []
  | p :: rest => p :: (firstBindings rest).filter (fun q => q.1 != p.1)

/-- Insertion into a list of bindings sorted by key. -/
def insertField (p : GoString × GoString) :
    List (GoString × GoString) → List (GoString × GoString)
  | [] => [p]
  | q :: rest => if bytesLE p.1 q.1 then p :: q :: rest else q :: insertField p rest

/-- Bindings sorted by key, the order in which `encoding/json` writes a map. -/
def sortFields : List (GoString × GoString) → List (GoString × GoString)
  | [] => []
  | p :: rest => insertField p (sortFields rest)

/-- Concatenation with a separator (Go `strings.Join`). -/
def joinWith (sep : GoString) : List GoString → GoString
  | [] => []
  | [x] => x
  | x :: y :: rest => x ++ sep ++ joinWith sep (y :: rest)

mutual
/-- Go `json.Marshal` on a decoded value. -/
def marshal (enc : Encoder) : JSON → GoString
  | .null => ascii "null"
  | .bool true => ascii "true"
  | .bool false => ascii "false"
  | .number f => enc.formatFloat f
  | .string s => 34 :: escapeString enc s ++ [34]
  | .array elems => 91 :: joinWith [44] (marshalElems enc elems) ++ [93]
  | .object fields =>
    123 :: joinWith [44]
      ((sortFields (firstBindings (marshalFields enc fields))).map
        (fun p => 34 :: escapeString enc p.1 ++ [34, 58] ++ p.2)) ++ [125]
/-- The encodings of the elements of an array. -/
def marshalElems (enc : Encoder) : List JSON → List GoString
  | [] => []
  | v :: vs => marshal enc v :: marshalElems enc vs
/-- The bindings of a map with their values encoded. -/
def marshalFields (enc : Encoder) : List (GoString × JSON) → List (GoString × GoString)
  | [] => []
  | (k, v) :: rest => (k, marshal enc v) :: marshalFields enc rest
end

/-- A run-time panic of the Go program. -/
inductive Panic where
  | indexOutOfRange
  | nilDereference
  | interfaceConversion
deriving DecidableEq, Repr

/-- The method `Search` of gabs v2 with one path segment that is neither a
decimal index nor `*` (all segments used by `main.go` are such names): the
binding of the key in a map, and the nil container for every other value. -/
def JSON.Search (c : JSON) (key : GoString) : JSON :=
  match c with
  | .object fields => (fields.lookup key).getD .null
  | _ => .null

/-- The method `Children` of gabs: the elements of an array in order, the
values of a map (Go fixes no order for them; here the order of the bindings),
and nothing for any other value. -/
def JSON.Children (c : JSON) : List JSON :=
  match c with
  | .array elems => elems
  | .object fields => fields.map Prod.snd
  | _ => []

/-- The method `String` of gabs v2: the JSON text of the wrapped value, the
text `null` for the nil container. -/
def JSON.String (enc : Encoder) (c : JSON) : GoString := marshal enc c

/-! ## Nodes, requests and the outside world -/

/-- The struct `OrionNode` of `main.go`; the zero value has every field empty. -/
structure OrionNode where
  NodeID : GoString := []
  Name : GoString := []
  IPAddress : GoString := []
  ConfigCount : GoString := []
  Vendor : GoString := []
  MachineType : GoString := []
  City : GoString := []
  Country : GoString := []
  NodeConfigFileID : GoString := []
deriving DecidableEq, Repr

/-- Token types of `x/net/html`. -/
inductive TokenType where
  | ErrorToken
  | TextToken
  | StartTagToken
  | EndTagToken
  | SelfClosingTagToken
  | CommentToken
  | DoctypeToken
deriving DecidableEq, Repr

/-- What `main.go` can observe of one token of the HTML tokenizer: its type,
what `TagName` returns for it (the lower-cased name and whether the tag has
attributes; the name is empty and the flag false for a token that is not a
tag) and what `Raw` returns (the bytes of the token as they stand in the
document). -/
structure Token where
  tt : TokenType
  tagName : GoString
  hasAttr : Bool
  raw : GoString
deriving DecidableEq, Repr

/-- The HTTP methods the program uses. -/
inductive Method where
  | GET
  | POST
deriving DecidableEq, Repr

/-- A request as `main.go` builds it: the method and the URL string it hands
to `http.NewRequest`, the headers and cookies it adds, and the body.  The
field `uri` is that string as the program wrote it; what `net/http` sends is
what `net/url` has parsed from it. -/
structure Request where
  method : Method
  uri : GoString
  headers : List (GoString × GoString)
  cookies : List GoString
  body : GoString
deriving DecidableEq, Repr

/-- What the program reads of a response: the value `gabs.ParseJSON` makes of
the body (`JSON.null`, the nil container, when the body is not JSON) and the
tokens `html.NewTokenizer` delivers for the body, in order. -/
structure Response where
  json : JSON
  tokens : List Token

/-- The remote console: from its current state and a request, the response
and its next state.  Transport failures are outside the model: every request
that the program hands to `httpClient.Do` is answered.  The URL strings of
the three POST requests are made of `URIHandler`, `IPAddress` and a constant
path; like the URL of the login they are fixed at startup, and they are taken
to be URLs that `http.NewRequest` accepts.  The URL string of the GET
contains the file id that the console has sent, and whether
`http.NewRequest` accepts it is part of the model (`newRequestAccepts`). -/
abbrev Server (σ : Type) := σ → Request → Response × σ

/-- The functions of `main.go` whose calls are recorded. -/
inductive Fn where
  | GetOrionNodes
  | GetNodeConfigCount
  | GetNodeConfigFileID
  | GetNodeConfigFileBody
deriving DecidableEq, Repr

/-- An operand of a print statement. -/
inductive PrintArg where
  | text (s : GoString)
  | value (v : JSON)
  | node (n : OrionNode)

/-- An observable step of a run: a call of a function of `main.go`, a request
handed to `httpClient.Do`, a line printed, a file written. -/
inductive Event where
  | call (fn : Fn) (arg : GoString)
  | http (req : Request)
  | println (args : List PrintArg)
  | writeFile (name : GoString) (data : GoString)

/-- The outcome of running a piece of the program: the events in order, the
state of the console afterwards, and the value returned or the panic. -/
structure Run (σ α : Type) where
  trace : List Event
  state : σ
  result : Except Panic α

/-- The event is a call of the function `fn`. -/
def Event.isCallTo (fn : Fn) : Event → Bool
  | .call f _ => f == fn
  | _ => false

/-- The event is an HTTP request with the method GET. -/
def Event.isGET : Event → Bool
  | .http req => req.method == .GET
  | _ => false

/-- The globals fixed at startup: `URIHandler` (`http://` or `https://`,
set from the flag `-tls`) and the flags `-m` (`extractionMethod`) and `-e`
(`exportContent`). -/
structure Config where
  URIHandler : GoString
  extractionMethod : Bool
  exportContent : Bool

/-- The global `UserAgent`. -/
def UserAgent : GoString := ascii "NCM Dump"

/-- The three headers of the JSON requests (lines 118-120, 190-192, 226-228). -/
def jsonHeaders : List (GoString × GoString) :=
  [(ascii "X-Requested-With", ascii "XMLHttpRequest"),
   (ascii "Content-Type", ascii "application/json"),
   (ascii "User-Agent", UserAgent)]

/-! ## The inventory: `GetOrionNodes` -/

/-- The `switch c` of lines 151-167: the text of column `c` goes to the
field that the column index selects, and nowhere for any other index. -/
def assignColumn (c : Nat) (text : GoString) (CurrentNode : OrionNode) : OrionNode :=
  match c with
  | 0 => { CurrentNode with NodeID := text }
  | 2 => { CurrentNode with Name := text }
  | 3 => { CurrentNode with IPAddress := text }
  | 17 => { CurrentNode with MachineType := text }
  | 18 => { CurrentNode with Vendor := text }
  | 23 => { CurrentNode with City := text }
  | 26 => { CurrentNode with Country := text }
  | _ => CurrentNode

/-- The loop `for c := 0; c < nodeColumnsCount; c++` of lines 148-168, with
`remaining` iterations to go from column `c`.  The expression `currentRow[c]`
panics when the row has no cell `c`. -/
def columnLoop (enc : Encoder) (currentRow : List JSON) :
    Nat → Nat → OrionNode → Except Panic OrionNode
  | 0, _, CurrentNode => .ok CurrentNode
  | remaining + 1, c, CurrentNode =>
    match currentRow[c]? with
    | none => .error .indexOutOfRange
    | some rowValue =>
      columnLoop enc currentRow remaining (c + 1)
        (assignColumn c (rowValue.String enc) CurrentNode)

/-- One row decoded (lines 146-168): a fresh `CurrentNode` filled by the
column loop over the children of the row. -/
def decodeRow (enc : Encoder) (nodeColumnsCount : Nat) (row : JSON) : Except Panic OrionNode :=
  columnLoop enc row.Children nodeColumnsCount 0 {}

/-- The loop over the rows of lines 145-173: the nodes decoded so far, the
lines printed so far, and the rows still to decode. -/
def rowLoop (enc : Encoder) (nodeColumnsCount : Nat) :
    List JSON → List OrionNode → List Event → List Event × Except Panic (List OrionNode)
  | [], NodeContainer, out => (out, .ok NodeContainer)
  | row :: rows, NodeContainer, out =>
    match decodeRow enc nodeColumnsCount row with
    | .error p => (out, .error p)
    | .ok CurrentNode =>
      rowLoop enc nodeColumnsCount rows (NodeContainer ++ [CurrentNode])
        (out ++ [.println [.text []], .println [.node CurrentNode]])

/-- The request of `GetOrionNodes` (lines 110-125). -/
def nodesRequest (cfg : Config) (Session : List GoString) (IPAddress : GoString) : Request :=
  let DeviceListURI := cfg.URIHandler ++ IPAddress ++
    ascii "/Orion/NCM/Services/ConfigManagement.asmx/GetNodesPaged?start=0&limit=1000&sort=LastTransferDate&dir=DESC"
  let httpRequestBody := ascii
    "\x7b\"groupingQueryString\":\"\",\"showSelectedOnly\":\"False\",\"colToSearch\":\"Nodes.Caption\",\"searchTerm\":\"\",\"clientOffset\":240\x7d"
  ⟨.POST, DeviceListURI, jsonHeaders, Session, httpRequestBody⟩

/-- The table of a decoded inventory response, `d.DataTable` (lines 132-133). -/
def nodeDataTableOf (ParsedJSON : JSON) : JSON :=
  (ParsedJSON.Search (ascii "d")).Search (ascii "DataTable")

/-- The number of declared columns, `nodeColumnsCount` (lines 134-135). -/
def nodeColumnsCountOf (ParsedJSON : JSON) : Nat :=
  ((nodeDataTableOf ParsedJSON).Search (ascii "Columns")).Children.length

/-- The rows of the table, `nodeDataRows` (line 137). -/
def nodeDataRowsOf (ParsedJSON : JSON) : List JSON :=
  ((nodeDataTableOf ParsedJSON).Search (ascii "Rows")).Children

/-- Lines 131-174 of `GetOrionNodes`: the nodes decoded from the parsed
response, after the events `out` that came before. -/
def decodeNodes (enc : Encoder) (ParsedJSON : JSON) (out : List Event) :
    List Event × Except Panic (List OrionNode) :=
  let nodeReportedCount := (ParsedJSON.Search (ascii "d")).Search (ascii "TotalRows")
  rowLoop enc (nodeColumnsCountOf ParsedJSON) (nodeDataRowsOf ParsedJSON) []
    (out ++ [.println [.text (ascii "Discovered"), .value nodeReportedCount,
                       .text (ascii "managed devices")]])

/-- The function `GetOrionNodes` of `main.go` (lines 109-175). -/
def GetOrionNodes {σ : Type} (enc : Encoder) (cfg : Config) (srv : Server σ) (st : σ)
    (Session : List GoString) (IPAddress : GoString) : Run σ (List OrionNode) :=
  let httpRequest := nodesRequest cfg Session IPAddress
  let answer := srv st httpRequest
  let decoded := decodeNodes enc answer.1.json
    [.call .GetOrionNodes IPAddress, .http httpRequest]
  ⟨decoded.1, answer.2, decoded.2⟩

/-! ## The per-node lookups -/

/-- Lines 201-210 of `GetNodeConfigCount`: the count as a string, from the
decoded response.  `reflect.TypeOf(nil).Kind()` panics when there is no value
under `d`; the type assertion `.(string)` panics on a value that is neither
a number nor a string. -/
def configCountOf (ParsedJSON : JSON) : Except Panic GoString :=
  let nodeDataRoot := ParsedJSON.Search (ascii "d")
  match nodeDataRoot with
  | .null => .error .nilDereference
  | .number f => .ok (Itoa (float64ToInt f))
  | .string s => .ok s
  | _ => .error .interfaceConversion

/-- The request of `GetNodeConfigCount` (lines 179-196). -/
def countRequest (cfg : Config) (Session : List GoString) (IPAddress NodeID : GoString) :
    Request :=
  let ConfigCountURI := cfg.URIHandler ++ IPAddress ++
    ascii "/Orion/NCM/Services/ConfigManagement.asmx/GetConfigsTotalRows"
  let httpRequestString := ascii "\x7b\"nodeId\":\"" ++ NodeID ++ ascii "\"\x7d"
  ⟨.POST, ConfigCountURI, jsonHeaders, Session, httpRequestString⟩

/-- The function `GetNodeConfigCount` of `main.go` (lines 178-211). -/
def GetNodeConfigCount {σ : Type} (cfg : Config) (srv : Server σ) (st : σ)
    (Session : List GoString) (IPAddress NodeID : GoString) : Run σ GoString :=
  let httpRequest := countRequest cfg Session IPAddress NodeID
  let answer := srv st httpRequest
  ⟨[.call .GetNodeConfigCount NodeID, .http httpRequest], answer.2, configCountOf answer.1.json⟩

/-- Lines 238-243 of `GetNodeConfigFileID`: the first cell of the first row
of `d.DataTable.Rows`.  Both index expressions `[0]` panic on an empty slice,
and the type assertion `.(string)` panics on a cell that is not a string. -/
def configFileIDOf (ParsedJSON : JSON) : Except Panic GoString :=
  let nodeDataRoot :=
    ((ParsedJSON.Search (ascii "d")).Search (ascii "DataTable")).Search (ascii "Rows")
  let configFileIDs := nodeDataRoot.Children
  match configFileIDs[0]? with
  | none => .error .indexOutOfRange
  | some first =>
    let configID := first.Children
    match configID[0]? with
    | none => .error .indexOutOfRange
    | some (JSON.string configIDString) => .ok configIDString
    | some _ => .error .interfaceConversion

/-- The request of `GetNodeConfigFileID` (lines 215-232). -/
def fileIDRequest (cfg : Config) (Session : List GoString) (IPAddress NodeID : GoString) :
    Request :=
  let ConfigFileIDURI := cfg.URIHandler ++ IPAddress ++
    ascii "/Orion/NCM/Services/ConfigManagement.asmx/GetConfigsPaged?sort=Name&dir=ASC"
  let httpRequestString := ascii "\x7b\"nodeId\":\"" ++ NodeID ++
    ascii "\",\"start\":\"1\",\"showAllConfigs\":\"FALSE\",\"clientOffset\":\"240\"\x7d"
  ⟨.POST, ConfigFileIDURI, jsonHeaders, Session, httpRequestString⟩

/-- The function `GetNodeConfigFileID` of `main.go` (lines 214-244). -/
def GetNodeConfigFileID {σ : Type} (cfg : Config) (srv : Server σ) (st : σ)
    (Session : List GoString) (IPAddress NodeID : GoString) : Run σ GoString :=
  let httpRequest := fileIDRequest cfg Session IPAddress NodeID
  let answer := srv st httpRequest
  ⟨[.call .GetNodeConfigFileID NodeID, .http httpRequest], answer.2,
   configFileIDOf answer.1.json⟩

/-! ## The HTML tokenizer as `main.go` drives it -/

/-- The state of an `html.Tokenizer` as far as `Next`, `Err`, `TagName` and
`Raw` show it: the current token, whether an error token has been delivered
(`z.err` is then set and stays set), and the tokens still to come. -/
structure Tokenizer where
  cur : Token
  err : Bool
  rest : List Token
deriving DecidableEq, Repr

/-- The error token of an exhausted tokenizer: no name, no raw bytes. -/
def errorToken : Token := ⟨.ErrorToken, [], false, []⟩

/-- Go `html.NewTokenizer`: before the first `Next` the token type is the
zero value `ErrorToken` and no error is recorded. -/
def NewTokenizer (tokens : List Token) : Tokenizer := ⟨errorToken, false, tokens⟩

/-- The method `Next`: once an error token has been delivered every further
call delivers the empty error token; otherwise the next token of the
document, and the error token at its end. -/
def Tokenizer.Next (z : Tokenizer) : Tokenizer :=
  if z.err then { z with cur := errorToken }
  else
    match z.rest with
    | [] => ⟨errorToken, true, []⟩
    | t :: ts => ⟨t, decide (t.tt = .ErrorToken), ts⟩

/-- The method `Err` is non-nil: the current token is an error token and an
error is recorded. -/
def Tokenizer.Err (z : Tokenizer) : Bool :=
  decide (z.cur.tt = .ErrorToken) && z.err

/-- The method `TagName`: the name and the attribute flag of a tag token, and
`(nil, false)` for every other token. -/
def Tokenizer.TagName (z : Tokenizer) : GoString × Bool :=
  match z.cur.tt with
  | .StartTagToken => (z.cur.tagName, z.cur.hasAttr)
  | .EndTagToken => (z.cur.tagName, z.cur.hasAttr)
  | .SelfClosingTagToken => (z.cur.tagName, z.cur.hasAttr)
  | _ => ([], false)

/-- The method `Raw`. -/
def Tokenizer.Raw (z : Tokenizer) : GoString := z.cur.raw

/-- A bound on the number of iterations the loop of lines 271-281 can make
from the state `z`: every iteration calls `Next` and so moves on in the
document. -/
def Tokenizer.fuel (z : Tokenizer) : Nat :=
  if z.err then (if z.cur.tt = .ErrorToken then 0 else 1) else z.rest.length + 2

/-- The loop `for configFileData.Err() == nil` of lines 271-281 of
`GetNodeConfigFileBody`, from the tokenizer state `z` and the current value
of `attributeString`, with at most `n` iterations; `out` collects the lines
printed by line 277.  `none` when the loop has not ended after `n`
iterations. -/
def tokenLoopFuel : Nat → Tokenizer → GoString → List Event → Option (List Event × GoString)
  | 0, z, attributeString, out => if z.Err = true then some (out, attributeString) else none
  | n + 1, z, attributeString, out =>
    if z.Err = true then some (out, attributeString)
    else
      let tagNameString := z.TagName.1
      let hasAttribute := z.TagName.2
      if tagNameString = ascii "textarea" ∧ hasAttribute = true then
        let z1 := z.Next
        let attributeString := z1.Raw
        tokenLoopFuel n z1.Next attributeString (out ++ [.println [.text attributeString]])
      else
        tokenLoopFuel n z.Next attributeString out

/-- The loop of lines 271-281 run to its end.  The loop always ends within
`z.fuel` iterations (`tokenLoopFuel_isSome` below), so the alternative value
is never taken. -/
def tokenLoop (z : Tokenizer) (attributeString : GoString) (out : List Event) :
    List Event × GoString :=
  (tokenLoopFuel z.fuel z attributeString out).getD (out, attributeString)

/-- Go `stringContainsCTLByte` of `net/url`: the string has an ASCII control
byte (a byte below 32, or 127). -/
def containsCTLByte (s : GoString) : Bool := s.any (fun b => decide (b < 32) || b == 127)

/-- The part of a URL string before its first `#`; `url.Parse` cuts the
fragment off there before it looks at the rest. -/
def beforeFragment (s : GoString) : GoString := s.takeWhile (fun b => b != 35)

/-- Whether `http.NewRequest` returns a request for the URL string `uri`, and
not `nil` with an error.  It returns `nil` when `url.Parse` fails, and
`url.Parse` fails on every string with a control byte before its first `#`.
The other checks of `net/url` (scheme, host, port, percent escapes) are left
open: `validURL` stands for them. -/
def newRequestAccepts (validURL : GoString → Bool) (uri : GoString) : Bool :=
  !containsCTLByte (beforeFragment uri) && validURL uri

/-- The arguments of the `http.NewRequest` of `GetNodeConfigFileBody` and what
lines 260-264 add to the request (lines 252-264): the method GET and the URL
string of the export endpoint, the file id between braces, when the flag `-m`
is set, of the edit endpoint followed by the file id otherwise. -/
def bodyRequest (cfg : Config) (Session : List GoString) (IPAddress ConfigFileID : GoString) :
    Request :=
  let httpRequestURI :=
    if cfg.extractionMethod then
      cfg.URIHandler ++ IPAddress ++
        ascii "/Orion/NCM/Resources/NCMConfigDetails/ConfigExporter.ashx?configID=\x7b" ++
        ConfigFileID ++ ascii "\x7d"
    else
      cfg.URIHandler ++ IPAddress ++
        ascii "/Orion/NCM/Resources/Configs/EditConfig.aspx?ConfigID=" ++ ConfigFileID
  ⟨.GET, httpRequestURI, [(ascii "User-Agent", UserAgent)], Session, []⟩

/-- The function `GetNodeConfigFileBody` of `main.go` (lines 247-285).  Line
259 discards the error of `http.NewRequest`; when `http.NewRequest` has not
accepted the URL string the request is `nil` and line 260 panics on it,
before anything is sent.  Otherwise: one GET, and the token loop over the
response. -/
def GetNodeConfigFileBody {σ : Type} (validURL : GoString → Bool) (cfg : Config)
    (srv : Server σ) (st : σ) (Session : List GoString)
    (IPAddress ConfigFileID : GoString) : Run σ GoString :=
  let httpRequest := bodyRequest cfg Session IPAddress ConfigFileID
  if newRequestAccepts validURL httpRequest.uri then
    let answer := srv st httpRequest
    let configFileData := NewTokenizer answer.1.tokens
    let done := tokenLoop configFileData []
      [.call .GetNodeConfigFileBody ConfigFileID, .http httpRequest]
    ⟨done.1, answer.2, .ok done.2⟩
  else
    ⟨[.call .GetNodeConfigFileBody ConfigFileID], st, .error .nilDereference⟩

/-! ## A tokenizer for simple documents

`html.Tokenizer` is not part of the repository.  To run the extraction on
documents given as bytes, `tokenizeSimple` reproduces it on a fragment of
HTML and answers `none` outside it.  The fragment: text without `<`; start
tags `<name attr ...>` whose name is alphanumeric and whose attributes are
`key` or `key="value"` (single or double quotes); end tags `</name>`; and the
element `textarea`, whose content the tokenizer reads as one text token up to
the first `</textarea` that is followed by white space, `/` or `>`.  Comments,
doctypes, self-closing tags, unquoted attribute values, the other raw-text
elements (`script`, `style`, `title`, ...) and documents that end inside a
tag are outside the fragment. -/

/-- ASCII letter. -/
def isLetter (c : Nat) : Bool := (97 ≤ c && c ≤ 122) || (65 ≤ c && c ≤ 90)

/-- ASCII letter or digit. -/
def isAlnum (c : Nat) : Bool := isLetter c || (48 ≤ c && c ≤ 57)

/-- The white space of the tokenizer: space, `\n`, `\r`, `\t`, `\f`. -/
def isSpace (c : Nat) : Bool := c == 32 || c == 10 || c == 13 || c == 9 || c == 12

/-- A byte of an attribute key of the fragment: alphanumeric, `-`, `_`, `:`. -/
def isKeyByte (c : Nat) : Bool := isAlnum c || c == 45 || c == 95 || c == 58

/-- Lower case of an ASCII byte. -/
def lowerByte (c : Nat) : Nat := if 65 ≤ c ∧ c ≤ 90 then c + 32 else c

/-- The names after whose start tag the tokenizer reads raw text. -/
def rawTextNames : List GoString :=
  [ascii "iframe", ascii "noembed", ascii "noframes", ascii "noscript", ascii "plaintext",
   ascii "script", ascii "style", ascii "textarea", ascii "title", ascii "xmp"]

/-- Whether `s` starts with the end of a `textarea`: `</textarea` in any
letter case, then white space, `/` or `>` (`readRawEndTag`). -/
def closesTextarea (s : GoString) : Bool :=
  match s with
  | 60 :: 47 :: rest =>
    (rest.take 8).map lowerByte == ascii "textarea" &&
      (match rest.drop 8 with
       | d :: _ => isSpace d || d == 47 || d == 62
       | [] => false)
  | _ => false

/-- The content of a `textarea` that starts at `s` (`readRawOrRCDATA`): the
bytes before the first place where `closesTextarea` holds, and the document
from that place on; everything up to the end when there is no such place. -/
def splitAtClose : GoString → GoString × GoString
  | [] => ([], [])
  | c :: cs =>
    if closesTextarea (c :: cs) then ([], c :: cs)
    else ((c :: (splitAtClose cs).1), (splitAtClose cs).2)

/-- The attributes of a tag from `s` on, up to and including the closing `>`:
the number of attributes and the document after the `>`.  `none` outside the
fragment. -/
def readAttrs : Nat → GoString → Option (Nat × GoString)
  | 0, _ => none
  | fuel + 1, s =>
    match s.dropWhile isSpace with
    | [] => none
    | 62 :: rest => some (0, rest)
    | c :: cs =>
      if isKeyByte c then
        let afterKey := ((c :: cs).dropWhile isKeyByte).dropWhile isSpace
        match afterKey with
        | 61 :: v =>
          match v.dropWhile isSpace with
          | q :: w =>
            if q = 34 ∨ q = 39 then
              match w.dropWhile (fun b => b != q) with
              | _ :: afterValue =>
                (readAttrs fuel afterValue).map (fun r => (r.1 + 1, r.2))
              | [] => none
            else none
          | [] => none
        | _ => (readAttrs fuel afterKey).map (fun r => (r.1 + 1, r.2))
      else none

/-- The bytes of `s` that come before its suffix `rest`. -/
def consumed (s rest : GoString) : GoString := s.take (s.length - rest.length)

/-- The tokens of a document of the fragment, with at most `fuel` tokens
read. -/
def tokenizeFuel : Nat → GoString → Option (List Token)
  | 0, _ => none
  | _ + 1, [] => some []
  | fuel + 1, c :: cs =>
    if c ≠ 60 then
      let text := (c :: cs).takeWhile (fun b => b != 60)
      (tokenizeFuel fuel ((c :: cs).dropWhile (fun b => b != 60))).map
        (fun ts => ⟨.TextToken, [], false, text⟩ :: ts)
    else
      match cs with
      | 47 :: l :: more =>
        if isLetter l then
          let name := (l :: more).takeWhile isAlnum
          match ((l :: more).dropWhile isAlnum).dropWhile isSpace with
          | 62 :: rest =>
            (tokenizeFuel fuel rest).map
              (fun ts => ⟨.EndTagToken, name.map lowerByte, false, consumed (c :: cs) rest⟩ :: ts)
          | _ => none
        else none
      | l :: more =>
        if isLetter l then
          let name := ((l :: more).takeWhile isAlnum).map lowerByte
          let afterName := (l :: more).dropWhile isAlnum
          match afterName with
          | [] => none
          | d :: _ =>
            if isSpace d ∨ d = 62 then
              match readAttrs (afterName.length + 1) afterName with
              | none => none
              | some (nAttr, rest) =>
                let tag : Token :=
                  ⟨.StartTagToken, name, decide (0 < nAttr), consumed (c :: cs) rest⟩
                if name = ascii "textarea" then
                  let content := (splitAtClose rest).1
                  let textTokens : List Token :=
                    if content = [] then [] else [⟨.TextToken, [], false, content⟩]
                  (tokenizeFuel fuel (splitAtClose rest).2).map
                    (fun ts => tag :: (textTokens ++ ts))
                else if name ∈ rawTextNames then none
                else (tokenizeFuel fuel rest).map (fun ts => tag :: ts)
            else none
        else none
      | [] => none

/-- The tokens `html.Tokenizer` delivers for a document of the fragment,
without the error token that ends them; `none` for a document outside the
fragment.  A document has at most as many tokens as bytes. -/
def tokenizeSimple (doc : GoString) : Option (List Token) :=
  tokenizeFuel (doc.length + 1) doc

/-- The text `GetNodeConfigFileBody` returns when the tokenizer delivers
`tokens` for the response (lines 269-284). -/
def extractFrom (tokens : List Token) : GoString :=
  (tokenLoop (NewTokenizer tokens) [] []).2

/-! ## The orchestrator: the loop of `main` -/

/-- One iteration of the loop of `main` (lines 313-335) for the node
`node`; the value returned is the node with the fields the iteration has
set.  A panic in one of the calls ends the iteration, and the run. -/
def processNode {σ : Type} (validURL : GoString → Bool) (cfg : Config) (srv : Server σ)
    (st : σ) (Session : List GoString) (IPAddress : GoString) (node : OrionNode) :
    Run σ OrionNode :=
  let NodeID := stringCleaning node.NodeID
  let count := GetNodeConfigCount cfg srv st Session IPAddress NodeID
  match count.result with
  | .error p => ⟨count.trace, count.state, .error p⟩
  | .ok ConfigCount =>
    let node := { node with ConfigCount := ConfigCount }
    if ConfigCount ≠ ascii "0" then
      let t1 := count.trace ++
        [.println [.text []],
         .println [.text (ascii "Retrieving config file from " ++ node.Name)]]
      let fileID := GetNodeConfigFileID cfg srv count.state Session IPAddress NodeID
      match fileID.result with
      | .error p => ⟨t1 ++ fileID.trace, fileID.state, .error p⟩
      | .ok NodeConfigFileID =>
        let node := { node with NodeConfigFileID := NodeConfigFileID }
        if NodeConfigFileID ≠ ascii "\x7b\x7d" then
          let body := GetNodeConfigFileBody validURL cfg srv fileID.state Session IPAddress
            node.NodeConfigFileID
          match body.result with
          | .error p => ⟨t1 ++ fileID.trace ++ body.trace, body.state, .error p⟩
          | .ok fileContents =>
            if cfg.exportContent then
              ⟨t1 ++ fileID.trace ++ body.trace ++
                [.println [.text (ascii "Writing contents to"), .text node.Name],
                 .writeFile (stringCleaning node.Name ++ ascii ".ncm") fileContents],
               body.state, .ok node⟩
            else
              ⟨t1 ++ fileID.trace ++ body.trace ++ [.println [.text fileContents]],
               body.state, .ok node⟩
        else ⟨t1 ++ fileID.trace, fileID.state, .ok node⟩
    else
      ⟨count.trace ++ [.println [.text (ascii "No config files found on " ++ node.Name)]],
       count.state, .ok node⟩

/-- The loop `for i := 0; i < OrionNodesCount; i++` of `main` (lines
311-336) over the directory returned by `GetOrionNodes`: the nodes in order,
each processed from the state the previous one left.  The value returned is
the directory as the iterations have updated it. -/
def mainLoop {σ : Type} (validURL : GoString → Bool) (cfg : Config) (srv : Server σ)
    (Session : List GoString) (IPAddress : GoString) :
    List OrionNode → σ → Run σ (List OrionNode)
  | [], st => ⟨[], st, .ok []⟩
  | node :: nodes, st =>
    let this := processNode validURL cfg srv st Session IPAddress node
    match this.result with
    | .error p => ⟨this.trace, this.state, .error p⟩
    | .ok node1 =>
      let others := mainLoop validURL cfg srv Session IPAddress nodes this.state
      ⟨this.trace ++ others.trace, others.state, others.result.map (fun ns => node1 :: ns)⟩

/-! ## Fixtures -/

/-- A console that gives the same answer to every request. -/
def fixedServer (answer : Response) : Server Unit := fun _ _ => (answer, ())

/-- The remaining checks of `net/url` in the examples: the URL strings of the
examples are plain `http` URLs with a numeric host, which pass them. -/
def acceptAll : GoString → Bool := fun _ => true

/-- A configuration for the examples: plain HTTP, edit mode, output to the
terminal. -/
def sampleConfig : Config := ⟨ascii "http://", false, false⟩

/-- The row of the specification's example, `["5","x","RouterA","10.0.0.1",
...]`, 27 cells long, with the string `Cisco` in cell 18 and `null` in every
cell that the example leaves open. -/
def ciscoRow : JSON :=
  .array ([.string (ascii "5"), .string (ascii "x"), .string (ascii "RouterA"),
           .string (ascii "10.0.0.1")] ++ List.replicate 14 .null ++
          [.string (ascii "Cisco")] ++ List.replicate 8 .null)

/-- An inventory response with 27 declared columns and the one row
`ciscoRow`. -/
def ciscoTable : JSON :=
  .object [(ascii "d", .object
    [(ascii "DataTable", .object
       [(ascii "Columns", .array (List.replicate 27 (.string (ascii "c")))),
        (ascii "Rows", .array [ciscoRow])]),
     (ascii "TotalRows", .number ⟨false, 1, 0⟩)])]

/-- The node that `GetOrionNodes` decodes from `ciscoRow`: every string cell
between its double quotes, every `null` cell as the text `null`. -/
def ciscoNode : OrionNode :=
  { NodeID := ascii "\"5\"", Name := ascii "\"RouterA\"", IPAddress := ascii "\"10.0.0.1\"",
    MachineType := ascii "null", Vendor := ascii "\"Cisco\"", City := ascii "null",
    Country := ascii "null" }

/-- The tokens of a page without any `textarea`. -/
def plainPageTokens : List Token :=
  (tokenizeSimple (ascii "<html><body><p>no config here</p></body></html>")).getD []

/-- The tokens of the specification's fixture,
`<textarea readonly>hostname R1\n!\n</textarea>`. -/
def fixtureTokens : List Token :=
  [⟨.StartTagToken, ascii "textarea", true, ascii "<textarea readonly>"⟩,
   ⟨.TextToken, [], false, ascii "hostname R1\n!\n"⟩,
   ⟨.EndTagToken, ascii "textarea", false, ascii "</textarea>"⟩]

/-- The tokens of `<textarea readonly></textarea>`: the start tag and the end
tag, with no text token between them. -/
def emptyTextareaTokens : List Token :=
  [⟨.StartTagToken, ascii "textarea", true, ascii "<textarea readonly>"⟩,
   ⟨.EndTagToken, ascii "textarea", false, ascii "</textarea>"⟩]

/-- A console that answers by endpoint: `count` to the count request,
`fileID` to the file-id request, and the page `page` to every other request. -/
def routedServer (count fileID : JSON) (page : List Token) : Server Unit := fun _ req =>
  if (ascii "/GetConfigsTotalRows").isSuffixOf req.uri then (⟨count, []⟩, ())
  else if (ascii "/GetConfigsPaged?sort=Name&dir=ASC").isSuffixOf req.uri then
    (⟨fileID, []⟩, ())
  else (⟨.null, page⟩, ())

/-- A count response `{"d": s}` with the count as a string. -/
def countResponse (s : GoString) : JSON := .object [(ascii "d", .string s)]

/-- A file-id response whose table has the given rows. -/
def fileIDResponse (rows : List JSON) : JSON :=
  .object [(ascii "d", .object [(ascii "DataTable", .object [(ascii "Rows", .array rows)])])]

/-- A second node, as `GetOrionNodes` would decode it. -/
def secondNode : OrionNode := { NodeID := ascii "\"6\"", Name := ascii "\"RouterB\"" }

/-! ## Theorems -/

example : tokenizeSimple (ascii "<textarea readonly>hostname R1\n!\n</textarea>") =
  some [⟨.StartTagToken, ascii "textarea", true, ascii "<textarea readonly>"⟩,
        ⟨.TextToken, [], false, ascii "hostname R1\n!\n"⟩,
        ⟨.EndTagToken, ascii "textarea", false, ascii "</textarea>"⟩] := by decide
example : (tokenizeSimple (ascii "<textarea readonly>hostname R1\n!\n</textarea>")).map extractFrom =
  some (ascii "hostname R1\n!\n") := by decide
example : (tokenizeSimple (ascii "<textarea readonly></textarea>")).map extractFrom =
  some (ascii "</textarea>") := by decide



/-- Replacing a byte by the empty string keeps exactly the other bytes. -/
theorem stringsReplaceByte_nil_eq_filter (s : GoString) (old : Nat) :
    stringsReplaceByte s old [] = s.filter (fun c => decide (c ≠ old)) := by
  induction s with
  | nil => rfl
  | cons c cs ih =>
    by_cases h : c = old
    · simp [stringsReplaceByte, h, ih]
    · simp [stringsReplaceByte, h, ih]

/-- The result of `stringCleaning` as one filter over the input. -/
theorem stringCleaning_eq_filter (s : GoString) :
    stringCleaning s = s.filter (fun c => decide (c ≠ 91 ∧ c ≠ 93 ∧ c ≠ 34)) := by
  simp only [stringCleaning, stringsReplaceByte_nil_eq_filter, List.filter_filter]
  congr 1
  funext c
  simp only [Bool.decide_and, Bool.and_comm, Bool.and_assoc, Bool.and_left_comm]

/-- C1: for every string `s`, `stringCleaning s` contains none of the bytes
`[` (91), `]` (93), `"` (34), and it is `s` with exactly those bytes deleted:
the sublist of `s` made of all other bytes, in their original order. -/
theorem stringCleaning_removes_exactly (s : GoString) :
    (91 ∉ stringCleaning s ∧ 93 ∉ stringCleaning s ∧ 34 ∉ stringCleaning s) ∧
    stringCleaning s = s.filter (fun c => decide (c ≠ 91 ∧ c ≠ 93 ∧ c ≠ 34)) := by
  refine ⟨?_, stringCleaning_eq_filter s⟩
  rw [stringCleaning_eq_filter]
  simp [List.mem_filter]

/-- C10: `stringCleaning` is idempotent, and it returns unchanged every
string that contains none of `[` (91), `]` (93), `"` (34). -/
theorem stringCleaning_idempotent :
    (∀ s : GoString, stringCleaning (stringCleaning s) = stringCleaning s) ∧
    (∀ s : GoString, 91 ∉ s → 93 ∉ s → 34 ∉ s → stringCleaning s = s) := by
  constructor
  · intro s
    simp only [stringCleaning_eq_filter, List.filter_filter, Bool.and_self]
  · intro s h1 h2 h3
    rw [stringCleaning_eq_filter, List.filter_eq_self]
    intro c hc
    have a1 : c ≠ 91 := fun h => h1 (h ▸ hc)
    have a2 : c ≠ 93 := fun h => h2 (h ▸ hc)
    have a3 : c ≠ 34 := fun h => h3 (h ▸ hc)
    simp [a1, a2, a3]

/-- An instance of C10 on concrete inputs: the quoted, bracketed identifier
`["5"]` is cleaned to `5`, cleaning twice changes nothing more, and the clean
string `RouterA` is returned as it is. -/
theorem stringCleaning_idempotent_witness :
    stringCleaning (stringCleaning (ascii "[\"5\"]")) = stringCleaning (ascii "[\"5\"]") ∧
    stringCleaning (ascii "[\"5\"]") = ascii "5" ∧
    stringCleaning (ascii "RouterA") = ascii "RouterA" :=
  ⟨stringCleaning_idempotent.1 _, by decide,
   stringCleaning_idempotent.2 _ (by decide) (by decide) (by decide)⟩

/-! ### Count normalisation -/

set_option exponentiation.threshold 2048

/-- The number of binary digits of a number below `2 ^ k` is at most `k`. -/
theorem bitLenAux_le (fuel : Nat) : ∀ (n k : Nat), n < 2 ^ k → bitLenAux fuel n ≤ k := by
  induction fuel with
  | zero => intro n k _; simp [bitLenAux]
  | succ fuel ih =>
    intro n k h
    unfold bitLenAux
    split
    · omega
    · rename_i hn
      cases k with
      | zero => simp at h; omega
      | succ k =>
        have h2 : n / 2 < 2 ^ k := by
          rw [Nat.div_lt_iff_lt_mul (by decide)]
          rw [pow_succ] at h
          exact h
        have := ih (n / 2) k h2
        omega

/-- Every natural number up to `2 ^ 53` is a multiple of the power of two by
which `float64OfNat` scales it: `float64` holds it exactly. -/
theorem exact_of_le_two_pow_53 (n : Nat) (h : n ≤ 2 ^ 53) : n % 2 ^ (bitLen n - 53) = 0 := by
  have hb : bitLen n ≤ 54 := bitLenAux_le n n 54 (by omega)
  by_cases hlt : n < 2 ^ 53
  · have : bitLen n ≤ 53 := bitLenAux_le n n 53 hlt
    have h0 : bitLen n - 53 = 0 := by omega
    simp [h0, Nat.mod_one]
  · have hn : n = 2 ^ 53 := by omega
    have h1 : bitLen n - 53 ≤ 1 := by omega
    interval_cases hs : bitLen n - 53
    · simp [Nat.mod_one]
    · subst hn; decide

/-- A number that `float64` holds exactly is decoded without rounding. -/
theorem float64OfNat_exact (n : Nat) (hrep : n % 2 ^ (bitLen n - 53) = 0)
    (hlt : n < 2 ^ 63) :
    float64OfNat n = some ⟨false, n / 2 ^ (bitLen n - 53), ((bitLen n - 53 : Nat) : Int)⟩ := by
  have hpos : 0 < 2 ^ (bitLen n - 53) := pow_pos (by decide) _
  have hmul : n / 2 ^ (bitLen n - 53) * 2 ^ (bitLen n - 53) = n :=
    Nat.div_mul_cancel (Nat.dvd_of_mod_eq_zero hrep)
  have hbig : n < 2 ^ 1024 :=
    lt_trans hlt (Nat.pow_lt_pow_right (by decide) (by decide))
  simp only [float64OfNat, hrep, Nat.mul_zero]
  have h1 : ¬ (2 ^ (bitLen n - 53) < 0 ∨
      (0 = 2 ^ (bitLen n - 53) ∧ n / 2 ^ (bitLen n - 53) % 2 = 1)) := by
    rintro (h | ⟨h, _⟩) <;> omega
  rw [if_neg h1, hmul, if_pos hbig]

/-- Converting back to `int` the `float64` of a number held exactly, below
`2 ^ 63`, gives the number. -/
theorem float64ToInt_exact (n : Nat) (hrep : n % 2 ^ (bitLen n - 53) = 0)
    (hlt : n < 2 ^ 63) :
    float64ToInt ⟨false, n / 2 ^ (bitLen n - 53), ((bitLen n - 53 : Nat) : Int)⟩ = (n : Int) := by
  have hmul : n / 2 ^ (bitLen n - 53) * 2 ^ (bitLen n - 53) = n :=
    Nat.div_mul_cancel (Nat.dvd_of_mod_eq_zero hrep)
  have h0 : (0 : Int) ≤ ((bitLen n - 53 : Nat) : Int) := Int.natCast_nonneg _
  simp only [float64ToInt, h0, if_true, Int.toNat_ofNat, hmul]
  have hr : -(2 : Int) ^ 63 ≤ (n : Int) ∧ (n : Int) < (2 : Int) ^ 63 := by
    constructor
    · have : (0 : Int) ≤ (n : Int) := Int.natCast_nonneg _
      omega
    · exact_mod_cast hlt
  simp only [Bool.false_eq_true, if_false]
  rw [if_pos hr]

/-- Go `strconv.Itoa` of a natural number is its decimal digits. -/
theorem Itoa_natCast (n : Nat) : Itoa (n : Int) = decimal n := by
  have : ¬ ((n : Int) < 0) := by omega
  simp [Itoa, this]

/-- C4, amended: for every natural number `n` below `2 ^ 63` that `float64`
holds exactly (`n` is a multiple of `2 ^ (bitLen n - 53)`; every `n` up to
`2 ^ 53` is), the JSON number `n` is decoded to some `float64` `f`, and a
response whose `d` is that number and a response whose `d` is the string of
the decimal digits of `n` both give the count `decimal n`. -/
theorem count_normalisation (n : Nat) (hrep : n % 2 ^ (bitLen n - 53) = 0)
    (hlt : n < 2 ^ 63) :
    ∃ f, float64OfNat n = some f ∧
      ∀ numeric text : JSON,
        numeric.Search (ascii "d") = .number f →
        text.Search (ascii "d") = .string (decimal n) →
        configCountOf numeric = .ok (decimal n) ∧ configCountOf text = .ok (decimal n) := by
  refine ⟨_, float64OfNat_exact n hrep hlt, ?_⟩
  intro numeric text hnum htext
  constructor
  · simp only [configCountOf, hnum]
    rw [float64ToInt_exact n hrep hlt, Itoa_natCast]
  · simp only [configCountOf, htext]

/-- C4 at `n = 5`: the responses `5.0` and `"5"` both give the count `5`. -/
theorem count_normalisation_witness :
    configCountOf (.object [(ascii "d", .number ⟨false, 5, 0⟩)]) = .ok (ascii "5") ∧
    configCountOf (.object [(ascii "d", .string (ascii "5"))]) = .ok (ascii "5") := by
  obtain ⟨f, hf, h⟩ := count_normalisation 5 (by decide) (by decide)
  have hf5 : f = ⟨false, 5, 0⟩ := by
    have : float64OfNat 5 = some ⟨false, 5, 0⟩ := by decide
    rw [this] at hf
    exact (Option.some.inj hf).symm
  subst hf5
  exact h _ _ rfl rfl

/-- C4 fails at `n = 2 ^ 53 + 1 = 9007199254740993`: the JSON number is
decoded to the `float64` `2 ^ 53`, so the numeric response gives the count
`9007199254740992`, while the string response gives `9007199254740993`. -/
theorem count_normalisation_counterexample :
    float64OfNat 9007199254740993 = some ⟨false, 4503599627370496, 1⟩ ∧
    configCountOf (.object [(ascii "d", .number ⟨false, 4503599627370496, 1⟩)])
      = .ok (ascii "9007199254740992") ∧
    configCountOf (.object [(ascii "d", .string (decimal 9007199254740993))])
      = .ok (ascii "9007199254740993") ∧
    ascii "9007199254740992" ≠ decimal 9007199254740993 := by
  refine ⟨by decide, rfl, rfl, by decide⟩

/-! ### The inventory decoder -/

/-- What one step of the `switch` does to each field of the node. -/
theorem assignColumn_fields (c : Nat) (t : GoString) (node : OrionNode) :
    (assignColumn c t node).NodeID = (if c = 0 then t else node.NodeID) ∧
    (assignColumn c t node).Name = (if c = 2 then t else node.Name) ∧
    (assignColumn c t node).IPAddress = (if c = 3 then t else node.IPAddress) ∧
    (assignColumn c t node).MachineType = (if c = 17 then t else node.MachineType) ∧
    (assignColumn c t node).Vendor = (if c = 18 then t else node.Vendor) ∧
    (assignColumn c t node).City = (if c = 23 then t else node.City) ∧
    (assignColumn c t node).Country = (if c = 26 then t else node.Country) ∧
    (assignColumn c t node).ConfigCount = node.ConfigCount ∧
    (assignColumn c t node).NodeConfigFileID = node.NodeConfigFileID := by
  unfold assignColumn
  split <;> simp_all

/-- The column loop succeeds when the row has a cell for every column it
visits. -/
theorem columnLoop_ok (enc : Encoder) (row : List JSON) :
    ∀ (remaining c : Nat) (node : OrionNode), c + remaining ≤ row.length →
      ∃ node1, columnLoop enc row remaining c node = .ok node1 := by
  intro remaining
  induction remaining with
  | zero => intro c node _; exact ⟨node, rfl⟩
  | succ remaining ih =>
    intro c node hlen
    have hc : c < row.length := by omega
    obtain ⟨node1, hrun⟩ :=
      ih (c + 1) (assignColumn c ((row.get ⟨c, hc⟩).String enc) node) (by omega)
    refine ⟨node1, ?_⟩
    simp only [columnLoop, List.getElem?_eq_getElem hc]
    exact hrun

/-- The column loop panics when the row runs out of cells before the
columns do. -/
theorem columnLoop_short (enc : Encoder) (row : List JSON) :
    ∀ (remaining c : Nat) (node : OrionNode), c ≤ row.length → row.length < c + remaining →
      columnLoop enc row remaining c node = .error .indexOutOfRange := by
  intro remaining
  induction remaining with
  | zero => intro c node h1 h2; omega
  | succ remaining ih =>
    intro c node h1 h2
    by_cases hc : c < row.length
    · simp only [columnLoop, List.getElem?_eq_getElem hc]
      exact ih (c + 1) _ (by omega) (by omega)
    · have hnone : row[c]? = none := List.getElem?_eq_none (by omega)
      simp only [columnLoop, hnone]

/-- A field that the `switch` sets at column `k` only holds, after the
column loop, the JSON text of cell `k` when the loop has visited column `k`,
and its former content otherwise. -/
theorem columnLoop_field (enc : Encoder) (row : List JSON) (get : OrionNode → GoString)
    (k : Nat)
    (hget : ∀ (c : Nat) (t : GoString) (node : OrionNode),
      get (assignColumn c t node) = if c = k then t else get node) :
    ∀ (remaining c : Nat) (node node1 : OrionNode),
      columnLoop enc row remaining c node = .ok node1 →
      get node1 =
        if c ≤ k ∧ k < c + remaining then ((row[k]?).map (JSON.String enc)).getD []
        else get node := by
  intro remaining
  induction remaining with
  | zero =>
    intro c node node1 h
    have hn : ¬ (c ≤ k ∧ k < c + 0) := by omega
    simp only [columnLoop] at h
    rw [if_neg hn, ← Except.ok.inj h]
  | succ remaining ih =>
    intro c node node1 h
    simp only [columnLoop] at h
    cases hcell : row[c]? with
    | none => rw [hcell] at h; cases h
    | some v =>
      rw [hcell] at h
      simp only at h
      rw [ih (c + 1) _ node1 h, hget]
      by_cases hk : c = k
      · subst hk
        have h1 : ¬ (c + 1 ≤ c ∧ c < c + 1 + remaining) := by omega
        have h2 : c ≤ c ∧ c < c + (remaining + 1) := by omega
        rw [if_neg h1, if_pos h2, if_pos rfl, hcell]
        rfl
      · by_cases h1 : c + 1 ≤ k ∧ k < c + 1 + remaining
        · have h2 : c ≤ k ∧ k < c + (remaining + 1) := by omega
          rw [if_pos h1, if_pos h2]
        · have h2 : ¬ (c ≤ k ∧ k < c + (remaining + 1)) := by omega
          rw [if_neg h1, if_neg h2, if_neg hk]

/-- A decoded row: every mapped field whose column is among the declared
columns holds the JSON text of the cell of that column. -/
theorem decodeRow_fields (enc : Encoder) (n : Nat) (row : JSON) (node : OrionNode)
    (h : decodeRow enc n row = .ok node) :
    (0 < n → some node.NodeID = (row.Children[0]?).map (JSON.String enc)) ∧
    (2 < n → some node.Name = (row.Children[2]?).map (JSON.String enc)) ∧
    (3 < n → some node.IPAddress = (row.Children[3]?).map (JSON.String enc)) ∧
    (17 < n → some node.MachineType = (row.Children[17]?).map (JSON.String enc)) ∧
    (18 < n → some node.Vendor = (row.Children[18]?).map (JSON.String enc)) ∧
    (23 < n → some node.City = (row.Children[23]?).map (JSON.String enc)) ∧
    (26 < n → some node.Country = (row.Children[26]?).map (JSON.String enc)) := by
  have hlen : n ≤ row.Children.length := by
    by_contra hlt
    have := columnLoop_short enc row.Children n 0 {} (by omega) (by omega)
    rw [decodeRow, this] at h
    cases h
  have key : ∀ (get : OrionNode → GoString) (k : Nat),
      (∀ (c : Nat) (t : GoString) (nd : OrionNode),
        get (assignColumn c t nd) = if c = k then t else get nd) →
      k < n → some (get node) = (row.Children[k]?).map (JSON.String enc) := by
    intro get k hget hk
    have hv := columnLoop_field enc row.Children get k hget n 0 {} node h
    have hin : 0 ≤ k ∧ k < 0 + n := by omega
    have hkl : k < row.Children.length := by omega
    rw [if_pos hin, List.getElem?_eq_getElem hkl] at hv
    rw [hv, List.getElem?_eq_getElem hkl]
    rfl
  refine ⟨key (·.NodeID) 0 ?_, key (·.Name) 2 ?_, key (·.IPAddress) 3 ?_,
    key (·.MachineType) 17 ?_, key (·.Vendor) 18 ?_, key (·.City) 23 ?_,
    key (·.Country) 26 ?_⟩ <;> intro c t nd
  · exact (assignColumn_fields c t nd).1
  · exact (assignColumn_fields c t nd).2.1
  · exact (assignColumn_fields c t nd).2.2.1
  · exact (assignColumn_fields c t nd).2.2.2.1
  · exact (assignColumn_fields c t nd).2.2.2.2.1
  · exact (assignColumn_fields c t nd).2.2.2.2.2.1
  · exact (assignColumn_fields c t nd).2.2.2.2.2.2.1

/-- The loop over the rows succeeds when every row has a cell for every
declared column; the nodes it adds are the decoded rows, in order. -/
theorem rowLoop_ok (enc : Encoder) (n : Nat) :
    ∀ (rows : List JSON) (acc : List OrionNode) (out : List Event),
      (∀ row ∈ rows, n ≤ row.Children.length) →
      ∃ nodes, (rowLoop enc n rows acc out).2 = .ok (acc ++ nodes) ∧
        List.Forall₂ (fun row node => decodeRow enc n row = .ok node) rows nodes := by
  intro rows
  induction rows with
  | nil => intro acc out _; exact ⟨[], by simp [rowLoop], List.Forall₂.nil⟩
  | cons row rows ih =>
    intro acc out hrows
    obtain ⟨node, hnode⟩ :=
      columnLoop_ok enc row.Children n 0 {} (by
        have := hrows row (List.mem_cons_self _ _)
        omega)
    obtain ⟨nodes, hrun, hall⟩ := ih (acc ++ [node])
      (out ++ [.println [.text []], .println [.node node]])
      (fun r hr => hrows r (List.mem_cons_of_mem _ hr))
    refine ⟨node :: nodes, ?_, List.Forall₂.cons hnode hall⟩
    have hdec : decodeRow enc n row = .ok node := hnode
    simp only [rowLoop, hdec]
    rw [hrun]
    simp

/-- The function `GetOrionNodes` returns the decoded rows, in order, when
every row has a cell for every declared column. -/
theorem GetOrionNodes_ok {σ : Type} (enc : Encoder) (cfg : Config) (srv : Server σ) (st : σ)
    (Session : List GoString) (IPAddress : GoString)
    (hrows : ∀ row ∈ nodeDataRowsOf (srv st (nodesRequest cfg Session IPAddress)).1.json,
      nodeColumnsCountOf (srv st (nodesRequest cfg Session IPAddress)).1.json
        ≤ row.Children.length) :
    ∃ nodes, (GetOrionNodes enc cfg srv st Session IPAddress).result = .ok nodes ∧
      List.Forall₂
        (fun row node =>
          decodeRow enc
            (nodeColumnsCountOf (srv st (nodesRequest cfg Session IPAddress)).1.json) row
            = .ok node)
        (nodeDataRowsOf (srv st (nodesRequest cfg Session IPAddress)).1.json) nodes := by
  obtain ⟨nodes, hrun, hall⟩ := rowLoop_ok enc _ _ []
    ([.call .GetOrionNodes IPAddress, .http (nodesRequest cfg Session IPAddress)] ++
      [.println [.text (ascii "Discovered"),
        .value (((srv st (nodesRequest cfg Session IPAddress)).1.json.Search (ascii "d")).Search
          (ascii "TotalRows")),
        .text (ascii "managed devices")]]) hrows
  exact ⟨nodes, by simpa [GetOrionNodes, decodeNodes] using hrun, hall⟩

/-- C5, amended: for every inventory table with at least 27 declared columns
in which every row has at least as many cells as there are declared columns,
`GetOrionNodes` returns one record per row, in order, and the fields
`NodeID`, `Name`, `IPAddress`, `MachineType`, `Vendor`, `City`, `Country` of
the record hold the JSON text (gabs `String()`) of the cells 0, 2, 3, 17,
18, 23, 26 of the row.  For a cell that is a JSON string this text is the
string between double quotes: a cell 18 that is the string `s` gives the
`Vendor` `"s"`, quotes included, and a cell 18 that is the string `Cisco`
gives the seven bytes `"Cisco"`. -/
theorem column_mapping {σ : Type} (enc : Encoder) (cfg : Config) (srv : Server σ) (st : σ)
    (Session : List GoString) (IPAddress : GoString)
    (h27 : 27 ≤ nodeColumnsCountOf (srv st (nodesRequest cfg Session IPAddress)).1.json)
    (hrows : ∀ row ∈ nodeDataRowsOf (srv st (nodesRequest cfg Session IPAddress)).1.json,
      nodeColumnsCountOf (srv st (nodesRequest cfg Session IPAddress)).1.json
        ≤ row.Children.length) :
    ∃ nodes, (GetOrionNodes enc cfg srv st Session IPAddress).result = .ok nodes ∧
      List.Forall₂
        (fun row node =>
          some node.NodeID = (row.Children[0]?).map (JSON.String enc) ∧
          some node.Name = (row.Children[2]?).map (JSON.String enc) ∧
          some node.IPAddress = (row.Children[3]?).map (JSON.String enc) ∧
          some node.MachineType = (row.Children[17]?).map (JSON.String enc) ∧
          some node.Vendor = (row.Children[18]?).map (JSON.String enc) ∧
          some node.City = (row.Children[23]?).map (JSON.String enc) ∧
          some node.Country = (row.Children[26]?).map (JSON.String enc) ∧
          (∀ s, row.Children[18]? = some (.string s) →
            node.Vendor = 34 :: escapeString enc s ++ [34]) ∧
          (row.Children[18]? = some (.string (ascii "Cisco")) →
            node.Vendor = ascii "\"Cisco\""))
        (nodeDataRowsOf (srv st (nodesRequest cfg Session IPAddress)).1.json) nodes := by
  obtain ⟨nodes, hrun, hall⟩ := GetOrionNodes_ok enc cfg srv st Session IPAddress hrows
  refine ⟨nodes, hrun, hall.imp ?_⟩
  intro row node hdec
  obtain ⟨f0, f2, f3, f17, f18, f23, f26⟩ := decodeRow_fields enc _ row node hdec
  have hquoted : ∀ s, row.Children[18]? = some (.string s) →
      node.Vendor = 34 :: escapeString enc s ++ [34] := by
    intro s hs
    have h18 := f18 (by omega)
    rw [hs] at h18
    exact Option.some.inj h18
  refine ⟨f0 (by omega), f2 (by omega), f3 (by omega), f17 (by omega), f18 (by omega),
    f23 (by omega), f26 (by omega), hquoted, ?_⟩
  intro hs
  rw [hquoted _ hs]
  rfl

/-- C5 on the table of the specification's example: the hypotheses hold, and
for every encoder the theorem applies. -/
theorem column_mapping_witness :
    27 ≤ nodeColumnsCountOf ciscoTable ∧
    (∀ row ∈ nodeDataRowsOf ciscoTable, nodeColumnsCountOf ciscoTable ≤ row.Children.length) ∧
    ∀ enc : Encoder, ∃ nodes,
      (GetOrionNodes enc sampleConfig (fixedServer ⟨ciscoTable, []⟩) () [] (ascii "10.0.0.9")).result
        = .ok nodes ∧
      List.Forall₂
        (fun row node =>
          some node.NodeID = (row.Children[0]?).map (JSON.String enc) ∧
          some node.Name = (row.Children[2]?).map (JSON.String enc) ∧
          some node.IPAddress = (row.Children[3]?).map (JSON.String enc) ∧
          some node.MachineType = (row.Children[17]?).map (JSON.String enc) ∧
          some node.Vendor = (row.Children[18]?).map (JSON.String enc) ∧
          some node.City = (row.Children[23]?).map (JSON.String enc) ∧
          some node.Country = (row.Children[26]?).map (JSON.String enc) ∧
          (∀ s, row.Children[18]? = some (.string s) →
            node.Vendor = 34 :: escapeString enc s ++ [34]) ∧
          (row.Children[18]? = some (.string (ascii "Cisco")) →
            node.Vendor = ascii "\"Cisco\""))
        (nodeDataRowsOf ciscoTable) nodes := by
  have h27 : 27 ≤ nodeColumnsCountOf ciscoTable := by decide
  have hrows : ∀ row ∈ nodeDataRowsOf ciscoTable,
      nodeColumnsCountOf ciscoTable ≤ row.Children.length := by
    intro row hrow
    have hr : nodeDataRowsOf ciscoTable = [ciscoRow] := rfl
    rw [hr, List.mem_singleton] at hrow
    subst hrow
    decide
  exact ⟨h27, hrows, fun enc =>
    column_mapping enc sampleConfig (fixedServer ⟨ciscoTable, []⟩) () [] (ascii "10.0.0.9")
      h27 hrows⟩

/-- C5 fails on the row of the specification's example: whatever the
encoder, the record decoded from `ciscoRow` is `ciscoNode`, whose `Vendor` is
the seven bytes `"Cisco"`, quotes included, and not the five bytes `Cisco`;
likewise its `NodeID` is `"5"` and not `5`. -/
theorem column_mapping_counterexample :
    (nodeColumnsCountOf ciscoTable = 27 ∧ ciscoRow.Children.length = 27) ∧
    (∀ enc : Encoder,
      (GetOrionNodes enc sampleConfig (fixedServer ⟨ciscoTable, []⟩) () [] (ascii "10.0.0.9")).result
        = .ok [ciscoNode]) ∧
    ciscoNode.Vendor = ascii "\"Cisco\"" ∧ ciscoNode.Vendor ≠ ascii "Cisco" ∧
    ciscoNode.NodeID ≠ ascii "5" := by
  refine ⟨by decide, fun enc => rfl, by decide, by decide, by decide⟩

/-- C6, amended: when every row has a cell for every declared column,
`GetOrionNodes` returns a record for every row whatever the JSON types of the
cells are (no hypothesis is made on them), and every mapped column among the
declared ones whose cell is JSON `null` gives the field the four bytes
`null`. -/
theorem decoding_total {σ : Type} (enc : Encoder) (cfg : Config) (srv : Server σ) (st : σ)
    (Session : List GoString) (IPAddress : GoString)
    (hrows : ∀ row ∈ nodeDataRowsOf (srv st (nodesRequest cfg Session IPAddress)).1.json,
      nodeColumnsCountOf (srv st (nodesRequest cfg Session IPAddress)).1.json
        ≤ row.Children.length) :
    ∃ nodes, (GetOrionNodes enc cfg srv st Session IPAddress).result = .ok nodes ∧
      List.Forall₂
        (fun row node =>
          ∀ k, k < nodeColumnsCountOf (srv st (nodesRequest cfg Session IPAddress)).1.json →
            row.Children[k]? = some .null →
            (k = 0 → node.NodeID = ascii "null") ∧
            (k = 2 → node.Name = ascii "null") ∧
            (k = 3 → node.IPAddress = ascii "null") ∧
            (k = 17 → node.MachineType = ascii "null") ∧
            (k = 18 → node.Vendor = ascii "null") ∧
            (k = 23 → node.City = ascii "null") ∧
            (k = 26 → node.Country = ascii "null"))
        (nodeDataRowsOf (srv st (nodesRequest cfg Session IPAddress)).1.json) nodes := by
  obtain ⟨nodes, hrun, hall⟩ := GetOrionNodes_ok enc cfg srv st Session IPAddress hrows
  refine ⟨nodes, hrun, hall.imp ?_⟩
  intro row node hdec k hk hnull
  obtain ⟨f0, f2, f3, f17, f18, f23, f26⟩ := decodeRow_fields enc _ row node hdec
  have hmar : ((some JSON.null : Option JSON).map (JSON.String enc)) = some (ascii "null") := rfl
  refine ⟨?_, ?_, ?_, ?_, ?_, ?_, ?_⟩ <;> intro hk0 <;> subst hk0
  · have h := f0 hk; rw [hnull, hmar] at h; exact Option.some.inj h
  · have h := f2 hk; rw [hnull, hmar] at h; exact Option.some.inj h
  · have h := f3 hk; rw [hnull, hmar] at h; exact Option.some.inj h
  · have h := f17 hk; rw [hnull, hmar] at h; exact Option.some.inj h
  · have h := f18 hk; rw [hnull, hmar] at h; exact Option.some.inj h
  · have h := f23 hk; rw [hnull, hmar] at h; exact Option.some.inj h
  · have h := f26 hk; rw [hnull, hmar] at h; exact Option.some.inj h

/-- C6 on the table of the specification's example, whose row has `null` in
the cells 17, 23 and 26: the hypothesis holds, and for every encoder the
theorem applies. -/
theorem decoding_total_witness :
    (∀ row ∈ nodeDataRowsOf ciscoTable, nodeColumnsCountOf ciscoTable ≤ row.Children.length) ∧
    ciscoRow.Children[17]? = some .null ∧
    ∀ enc : Encoder, ∃ nodes,
      (GetOrionNodes enc sampleConfig (fixedServer ⟨ciscoTable, []⟩) () [] (ascii "10.0.0.9")).result
        = .ok nodes ∧
      List.Forall₂
        (fun row node =>
          ∀ k, k < nodeColumnsCountOf ciscoTable →
            row.Children[k]? = some .null →
            (k = 0 → node.NodeID = ascii "null") ∧
            (k = 2 → node.Name = ascii "null") ∧
            (k = 3 → node.IPAddress = ascii "null") ∧
            (k = 17 → node.MachineType = ascii "null") ∧
            (k = 18 → node.Vendor = ascii "null") ∧
            (k = 23 → node.City = ascii "null") ∧
            (k = 26 → node.Country = ascii "null"))
        (nodeDataRowsOf ciscoTable) nodes := by
  have hrows : ∀ row ∈ nodeDataRowsOf ciscoTable,
      nodeColumnsCountOf ciscoTable ≤ row.Children.length := by
    intro row hrow
    have hr : nodeDataRowsOf ciscoTable = [ciscoRow] := rfl
    rw [hr, List.mem_singleton] at hrow
    subst hrow
    decide
  exact ⟨hrows, rfl, fun enc =>
    decoding_total enc sampleConfig (fixedServer ⟨ciscoTable, []⟩) () [] (ascii "10.0.0.9") hrows⟩

/-- C6 fails on a row of 27 `null` cells under 27 declared columns:
whatever the encoder, every mapped field of the decoded record is the text
`null`, which is not the empty string. -/
theorem decoding_total_counterexample :
    (∀ enc : Encoder,
      decodeRow enc 27 (.array (List.replicate 27 .null)) =
        .ok { NodeID := ascii "null", Name := ascii "null", IPAddress := ascii "null",
              MachineType := ascii "null", Vendor := ascii "null", City := ascii "null",
              Country := ascii "null" }) ∧
    ascii "null" ≠ ([] : GoString) := by
  refine ⟨fun enc => rfl, by decide⟩

/-- A row with fewer cells than there are declared columns makes the column
loop panic: `currentRow[c]` is out of range. -/
theorem decodeRow_short_row (enc : Encoder) (n : Nat) (row : JSON)
    (h : row.Children.length < n) : decodeRow enc n row = .error .indexOutOfRange :=
  columnLoop_short enc row.Children n 0 {} (by omega) (by omega)

/-! ### The token loop -/

/-- A call of `Next` never raises the bound on the iterations left. -/
theorem Tokenizer.fuel_Next_le (z : Tokenizer) : z.Next.fuel ≤ z.fuel := by
  rcases z with ⟨cur, err, rest⟩
  cases err
  · cases rest with
    | nil => simp [Tokenizer.Next, Tokenizer.fuel, errorToken]
    | cons t ts =>
      by_cases ht : t.tt = .ErrorToken
      · simp [Tokenizer.Next, Tokenizer.fuel, ht]
      · simp [Tokenizer.Next, Tokenizer.fuel, ht]
  · by_cases hc : cur.tt = .ErrorToken
    · simp [Tokenizer.Next, Tokenizer.fuel, errorToken, hc]
    · simp [Tokenizer.Next, Tokenizer.fuel, errorToken, hc]

/-- While `Err` is nil, a call of `Next` lowers the bound on the iterations
left. -/
theorem Tokenizer.fuel_Next_lt (z : Tokenizer) (h : ¬ z.Err = true) : z.Next.fuel < z.fuel := by
  rcases z with ⟨cur, err, rest⟩
  cases err
  · cases rest with
    | nil => simp [Tokenizer.Next, Tokenizer.fuel, errorToken]
    | cons t ts =>
      by_cases ht : t.tt = .ErrorToken
      · simp [Tokenizer.Next, Tokenizer.fuel, ht]
      · simp [Tokenizer.Next, Tokenizer.fuel, ht]
  · have hc : ¬ cur.tt = .ErrorToken := by
      intro hc
      apply h
      simp [Tokenizer.Err, hc]
    simp [Tokenizer.Next, Tokenizer.fuel, errorToken, hc]

/-- When the bound on the iterations left is zero, `Err` is non-nil. -/
theorem Tokenizer.Err_of_fuel_zero (z : Tokenizer) (h : z.fuel = 0) : z.Err = true := by
  rcases z with ⟨cur, err, rest⟩
  cases err
  · simp [Tokenizer.fuel] at h
  · by_cases hc : cur.tt = .ErrorToken
    · simp [Tokenizer.Err, hc]
    · simp [Tokenizer.fuel, hc] at h

/-- One iteration of the loop. -/
theorem tokenLoopFuel_succ (n : Nat) (z : Tokenizer) (a : GoString) (out : List Event) :
    tokenLoopFuel (n + 1) z a out =
      if z.Err = true then some (out, a)
      else if z.TagName.1 = ascii "textarea" ∧ z.TagName.2 = true then
        tokenLoopFuel n z.Next.Next z.Next.Raw (out ++ [.println [.text z.Next.Raw]])
      else tokenLoopFuel n z.Next a out := rfl

/-- The loop ends: with `z.fuel` iterations allowed, or more, it returns. -/
theorem tokenLoopFuel_isSome :
    ∀ (n : Nat) (z : Tokenizer) (a : GoString) (out : List Event), z.fuel ≤ n →
      ∃ r, tokenLoopFuel n z a out = some r := by
  intro n
  induction n with
  | zero =>
    intro z a out h
    have hz : z.Err = true := z.Err_of_fuel_zero (by omega)
    exact ⟨(out, a), by simp [tokenLoopFuel, hz]⟩
  | succ n ih =>
    intro z a out h
    rw [tokenLoopFuel_succ]
    by_cases hz : z.Err = true
    · exact ⟨(out, a), by rw [if_pos hz]⟩
    · have h1 : z.Next.fuel ≤ n := by
        have := z.fuel_Next_lt hz
        omega
      have h2 : z.Next.Next.fuel ≤ n := le_trans z.Next.fuel_Next_le h1
      rw [if_neg hz]
      by_cases hq : z.TagName.1 = ascii "textarea" ∧ z.TagName.2 = true
      · rw [if_pos hq]; exact ih _ _ _ h2
      · rw [if_neg hq]; exact ih _ _ _ h1

/-- More iterations allowed do not change what the loop returns. -/
theorem tokenLoopFuel_mono :
    ∀ (n : Nat) (z : Tokenizer) (a : GoString) (out : List Event) (r : List Event × GoString),
      tokenLoopFuel n z a out = some r → tokenLoopFuel (n + 1) z a out = some r := by
  intro n
  induction n with
  | zero =>
    intro z a out r h
    by_cases hz : z.Err = true
    · simpa [tokenLoopFuel, hz] using h
    · simp [tokenLoopFuel, hz] at h
  | succ n ih =>
    intro z a out r h
    rw [tokenLoopFuel_succ] at h ⊢
    by_cases hz : z.Err = true
    · rw [if_pos hz] at h ⊢; exact h
    · rw [if_neg hz] at h ⊢
      by_cases hq : z.TagName.1 = ascii "textarea" ∧ z.TagName.2 = true
      · rw [if_pos hq] at h ⊢; exact ih _ _ _ _ h
      · rw [if_neg hq] at h ⊢; exact ih _ _ _ _ h

/-- What the loop returns with enough iterations allowed is what `tokenLoop`
returns. -/
theorem tokenLoopFuel_eq_tokenLoop (n : Nat) (z : Tokenizer) (a : GoString)
    (out : List Event) (h : z.fuel ≤ n) :
    tokenLoopFuel n z a out = some (tokenLoop z a out) := by
  obtain ⟨r, hr⟩ := tokenLoopFuel_isSome z.fuel z a out (le_refl _)
  have hmono : ∀ k, tokenLoopFuel (z.fuel + k) z a out = some r := by
    intro k
    induction k with
    | zero => exact hr
    | succ k ihk => exact tokenLoopFuel_mono _ _ _ _ _ ihk
  have hn : n = z.fuel + (n - z.fuel) := by omega
  rw [hn, hmono, tokenLoop, hr]
  rfl

/-- The loop of lines 271-281 as a recursion: it stops when `Err` is
non-nil; after a `textarea` tag with attributes it keeps the raw bytes of the
next token, prints them, and goes on from the token after that one; after any
other token it goes on from the next token. -/
theorem tokenLoop_unfold (z : Tokenizer) (a : GoString) (out : List Event) :
    tokenLoop z a out =
      if z.Err = true then (out, a)
      else if z.TagName.1 = ascii "textarea" ∧ z.TagName.2 = true then
        tokenLoop z.Next.Next z.Next.Raw (out ++ [.println [.text z.Next.Raw]])
      else tokenLoop z.Next a out := by
  have h := tokenLoopFuel_eq_tokenLoop (z.fuel + 1) z a out (by omega)
  rw [tokenLoopFuel_succ] at h
  by_cases hz : z.Err = true
  · rw [if_pos hz] at h ⊢
    exact (Option.some.inj h).symm
  · have h1 : z.Next.fuel ≤ z.fuel := z.fuel_Next_le
    have h2 : z.Next.Next.fuel ≤ z.fuel := le_trans z.Next.fuel_Next_le h1
    rw [if_neg hz] at h ⊢
    by_cases hq : z.TagName.1 = ascii "textarea" ∧ z.TagName.2 = true
    · rw [if_pos hq, tokenLoopFuel_eq_tokenLoop _ _ _ _ h2] at h
      rw [if_pos hq]
      exact (Option.some.inj h).symm
    · rw [if_neg hq, tokenLoopFuel_eq_tokenLoop _ _ _ _ h1] at h
      rw [if_neg hq]
      exact (Option.some.inj h).symm

/-- A token that is not a `textarea` tag with attributes fails the test of
line 274. -/
theorem TagName_not_textarea (z : Tokenizer)
    (h : ¬ (z.cur.tagName = ascii "textarea" ∧ z.cur.hasAttr = true)) :
    ¬ (z.TagName.1 = ascii "textarea" ∧ z.TagName.2 = true) := by
  unfold Tokenizer.TagName
  split <;> first | exact h | simp

/-- From a state in which neither the current token nor any token to come is
a `textarea` tag with attributes, the loop ends and leaves `attributeString`
and the printed lines as they were. -/
theorem tokenLoopFuel_no_textarea :
    ∀ (n : Nat) (z : Tokenizer) (a : GoString) (out : List Event), z.fuel ≤ n →
      ¬ (z.cur.tagName = ascii "textarea" ∧ z.cur.hasAttr = true) →
      (∀ t ∈ z.rest, ¬ (t.tagName = ascii "textarea" ∧ t.hasAttr = true)) →
      tokenLoopFuel n z a out = some (out, a) := by
  intro n
  induction n with
  | zero =>
    intro z a out h _ _
    have hz : z.Err = true := z.Err_of_fuel_zero (by omega)
    simp [tokenLoopFuel, hz]
  | succ n ih =>
    intro z a out h hcur hrest
    rw [tokenLoopFuel_succ]
    by_cases hz : z.Err = true
    · rw [if_pos hz]
    · rw [if_neg hz, if_neg (TagName_not_textarea z hcur)]
      have h1 : z.Next.fuel ≤ n := by
        have := z.fuel_Next_lt hz
        omega
      apply ih _ _ _ h1
      · rcases z with ⟨cur, err, rest⟩
        cases err
        · cases rest with
          | nil => simp [Tokenizer.Next, errorToken, ascii]
          | cons t ts =>
            simp only [Tokenizer.Next]
            exact hrest t (List.mem_cons_self _ _)
        · simp [Tokenizer.Next, errorToken, ascii]
      · rcases z with ⟨cur, err, rest⟩
        cases err
        · cases rest with
          | nil => simp [Tokenizer.Next]
          | cons t ts =>
            simp only [Tokenizer.Next]
            intro u hu
            exact hrest u (List.mem_cons_of_mem _ hu)
        · simpa [Tokenizer.Next] using hrest

/-- From a state in which neither the current token nor any token to come is
a `textarea` tag with attributes, the loop returns what it was given. -/
theorem tokenLoop_no_textarea (z : Tokenizer) (a : GoString) (out : List Event)
    (hcur : ¬ (z.cur.tagName = ascii "textarea" ∧ z.cur.hasAttr = true))
    (hrest : ∀ t ∈ z.rest, ¬ (t.tagName = ascii "textarea" ∧ t.hasAttr = true)) :
    tokenLoop z a out = (out, a) := by
  have h1 := tokenLoopFuel_no_textarea z.fuel z a out (le_refl _) hcur hrest
  have h2 := tokenLoopFuel_eq_tokenLoop z.fuel z a out (le_refl _)
  rw [h1] at h2
  exact (Option.some.inj h2).symm

/-- When `http.NewRequest` accepts the URL string, `GetNodeConfigFileBody`
sends the request and returns what the token loop leaves. -/
theorem GetNodeConfigFileBody_accepted {σ : Type} (validURL : GoString → Bool) (cfg : Config)
    (srv : Server σ) (st : σ) (Session : List GoString) (IPAddress ConfigFileID : GoString)
    (hacc : newRequestAccepts validURL
      (bodyRequest cfg Session IPAddress ConfigFileID).uri = true) :
    GetNodeConfigFileBody validURL cfg srv st Session IPAddress ConfigFileID =
      ⟨(tokenLoop
          (NewTokenizer (srv st (bodyRequest cfg Session IPAddress ConfigFileID)).1.tokens) []
          [.call .GetNodeConfigFileBody ConfigFileID,
           .http (bodyRequest cfg Session IPAddress ConfigFileID)]).1,
       (srv st (bodyRequest cfg Session IPAddress ConfigFileID)).2,
       .ok (tokenLoop
          (NewTokenizer (srv st (bodyRequest cfg Session IPAddress ConfigFileID)).1.tokens) []
          [.call .GetNodeConfigFileBody ConfigFileID,
           .http (bodyRequest cfg Session IPAddress ConfigFileID)]).2⟩ := by
  simp only [GetNodeConfigFileBody, hacc, if_true]

/-- When `http.NewRequest` does not accept the URL string,
`GetNodeConfigFileBody` sends nothing and panics on the nil request. -/
theorem GetNodeConfigFileBody_rejected {σ : Type} (validURL : GoString → Bool) (cfg : Config)
    (srv : Server σ) (st : σ) (Session : List GoString) (IPAddress ConfigFileID : GoString)
    (hrej : newRequestAccepts validURL
      (bodyRequest cfg Session IPAddress ConfigFileID).uri = false) :
    GetNodeConfigFileBody validURL cfg srv st Session IPAddress ConfigFileID =
      ⟨[.call .GetNodeConfigFileBody ConfigFileID], st, .error .nilDereference⟩ := by
  simp [GetNodeConfigFileBody, hrej]

/-- C9: when no token of the response is a `textarea` tag carrying
attributes (in particular when the document has no `textarea` at all), the
token loop ends, within `length + 2` iterations, with `attributeString` still
empty and nothing printed; the text extracted from the tokens is the empty
string; and `GetNodeConfigFileBody`, whenever it has sent its request (that
is, whenever `http.NewRequest` has accepted the URL string, without which no
document is received), returns the empty string, without a panic. -/
theorem no_textarea_gives_empty {σ : Type} (validURL : GoString → Bool) (cfg : Config)
    (srv : Server σ) (st : σ)
    (Session : List GoString) (IPAddress ConfigFileID : GoString)
    (h : ∀ t ∈ (srv st (bodyRequest cfg Session IPAddress ConfigFileID)).1.tokens,
      ¬ (t.tagName = ascii "textarea" ∧ t.hasAttr = true)) :
    (∀ (n : Nat) (out : List Event),
      (srv st (bodyRequest cfg Session IPAddress ConfigFileID)).1.tokens.length + 2 ≤ n →
      tokenLoopFuel n
        (NewTokenizer (srv st (bodyRequest cfg Session IPAddress ConfigFileID)).1.tokens) [] out
        = some (out, [])) ∧
    extractFrom (srv st (bodyRequest cfg Session IPAddress ConfigFileID)).1.tokens = [] ∧
    (newRequestAccepts validURL (bodyRequest cfg Session IPAddress ConfigFileID).uri = true →
      (GetNodeConfigFileBody validURL cfg srv st Session IPAddress ConfigFileID).result
        = .ok []) := by
  have hcur : ¬ ((NewTokenizer
      (srv st (bodyRequest cfg Session IPAddress ConfigFileID)).1.tokens).cur.tagName
        = ascii "textarea" ∧
      (NewTokenizer
        (srv st (bodyRequest cfg Session IPAddress ConfigFileID)).1.tokens).cur.hasAttr
        = true) := by
    simp [NewTokenizer, errorToken, ascii]
  refine ⟨?_, ?_, ?_⟩
  · intro n out hn
    have hfuel : (NewTokenizer
        (srv st (bodyRequest cfg Session IPAddress ConfigFileID)).1.tokens).fuel ≤ n := hn
    exact tokenLoopFuel_no_textarea n _ _ _ hfuel hcur h
  · rw [extractFrom, tokenLoop_no_textarea _ _ _ hcur h]
  · intro hacc
    rw [GetNodeConfigFileBody_accepted validURL cfg srv st Session IPAddress ConfigFileID hacc,
      tokenLoop_no_textarea _ _ _ hcur h]

/-- C9 on a page without `textarea`: the page is tokenized into seven
tokens, none of them a `textarea` tag with attributes, the URL string of the
request has no control byte, and the extraction returns the empty string. -/
theorem no_textarea_gives_empty_witness :
    tokenizeSimple (ascii "<html><body><p>no config here</p></body></html>")
      = some plainPageTokens ∧
    plainPageTokens.length = 7 ∧
    (∀ t ∈ plainPageTokens, ¬ (t.tagName = ascii "textarea" ∧ t.hasAttr = true)) ∧
    extractFrom plainPageTokens = [] ∧
    newRequestAccepts acceptAll
      (bodyRequest sampleConfig [] (ascii "10.0.0.9") (ascii "42")).uri = true ∧
    (GetNodeConfigFileBody acceptAll sampleConfig (fixedServer ⟨.null, plainPageTokens⟩) () []
      (ascii "10.0.0.9") (ascii "42")).result = .ok [] := by
  have h : ∀ t ∈ plainPageTokens, ¬ (t.tagName = ascii "textarea" ∧ t.hasAttr = true) := by
    decide
  have hacc : newRequestAccepts acceptAll
      (bodyRequest sampleConfig [] (ascii "10.0.0.9") (ascii "42")).uri = true := by decide
  have hthm := no_textarea_gives_empty acceptAll sampleConfig
    (fixedServer ⟨.null, plainPageTokens⟩) () [] (ascii "10.0.0.9") (ascii "42") h
  exact ⟨by decide, by decide, h, hthm.2.1, hacc, hthm.2.2 hacc⟩

/-- The specification's fixture: the document
`<textarea readonly>hostname R1\n!\n</textarea>` is tokenized into a start
tag with an attribute, one text token and the end tag, and the extraction
returns the raw bytes of the text token, `hostname R1\n!\n`. -/
theorem textarea_fixture :
    tokenizeSimple (ascii "<textarea readonly>hostname R1\n!\n</textarea>") = some fixtureTokens ∧
    extractFrom fixtureTokens = ascii "hostname R1\n!\n" ∧
    (GetNodeConfigFileBody acceptAll sampleConfig (fixedServer ⟨.null, fixtureTokens⟩) () []
      (ascii "10.0.0.9") (ascii "42")).result = .ok (ascii "hostname R1\n!\n") := by
  refine ⟨by decide, by decide, rfl⟩

/-- C7 fails on `<textarea readonly></textarea>`: the tokenizer delivers the
start tag and then the end tag, with no text token between them, so the
`Next` of line 275 lands on the end tag and the extraction returns its raw
bytes, `</textarea>`, where the content between the tags is empty. -/
theorem empty_textarea_returns_end_tag :
    tokenizeSimple (ascii "<textarea readonly></textarea>") = some emptyTextareaTokens ∧
    extractFrom emptyTextareaTokens = ascii "</textarea>" ∧
    (GetNodeConfigFileBody acceptAll sampleConfig (fixedServer ⟨.null, emptyTextareaTokens⟩)
      () [] (ascii "10.0.0.9") (ascii "42")).result = .ok (ascii "</textarea>") ∧
    ascii "</textarea>" ≠ ([] : GoString) := by
  refine ⟨by decide, by decide, rfl, by decide⟩

/-- The loop on a document with one `textarea` tag carrying attributes:
from a current token that is not such a tag, with tokens `pre` to come that
are neither error tokens nor such tags, then the tag, then a token `next`,
then tokens `post` without such a tag, the loop returns the raw bytes of
`next`. -/
theorem tokenLoop_one_textarea (tag next : Token) (post : List Token)
    (htag : (tag.tt = .StartTagToken ∨ tag.tt = .SelfClosingTagToken) ∧
      tag.tagName = ascii "textarea" ∧ tag.hasAttr = true)
    (hpost : ∀ t ∈ post, ¬ (t.tagName = ascii "textarea" ∧ t.hasAttr = true)) :
    ∀ (pre : List Token) (cur : Token) (a : GoString) (out : List Event),
      ¬ (cur.tagName = ascii "textarea" ∧ cur.hasAttr = true) →
      (∀ t ∈ pre, t.tt ≠ .ErrorToken ∧ ¬ (t.tagName = ascii "textarea" ∧ t.hasAttr = true)) →
      (tokenLoop ⟨cur, false, pre ++ tag :: next :: post⟩ a out).2 = next.raw := by
  intro pre
  induction pre with
  | nil =>
    intro cur a out hcur _
    have herr : ∀ (c : Token) (r : List Token), ¬ (Tokenizer.Err ⟨c, false, r⟩ = true) := by
      intro c r
      simp [Tokenizer.Err]
    have htt : tag.tt ≠ .ErrorToken := by
      rcases htag.1 with h | h <;> rw [h] <;> decide
    have hq : (Tokenizer.TagName ⟨tag, false, next :: post⟩).1 = ascii "textarea" ∧
        (Tokenizer.TagName ⟨tag, false, next :: post⟩).2 = true := by
      rcases htag.1 with h | h <;> simp [Tokenizer.TagName, h, htag.2.1, htag.2.2]
    rw [tokenLoop_unfold, if_neg (herr _ _),
      if_neg (TagName_not_textarea ⟨cur, false, [] ++ tag :: next :: post⟩ hcur)]
    have hn1 : Tokenizer.Next ⟨cur, false, [] ++ tag :: next :: post⟩
        = ⟨tag, false, next :: post⟩ := by
      simp [Tokenizer.Next, htt]
    rw [hn1, tokenLoop_unfold, if_neg (herr _ _), if_pos hq]
    have hn2 : Tokenizer.Next ⟨tag, false, next :: post⟩
        = ⟨next, decide (next.tt = .ErrorToken), post⟩ := by
      simp [Tokenizer.Next]
    rw [hn2]
    have hraw : Tokenizer.Raw ⟨next, decide (next.tt = .ErrorToken), post⟩ = next.raw := rfl
    rw [hraw, tokenLoop_no_textarea]
    · by_cases he : next.tt = .ErrorToken
      · simp [Tokenizer.Next, he, errorToken, ascii]
      · cases post with
        | nil => simp [Tokenizer.Next, he, errorToken, ascii]
        | cons u us =>
          simp only [Tokenizer.Next, he, decide_False]
          exact hpost u (List.mem_cons_self _ _)
    · by_cases he : next.tt = .ErrorToken
      · simpa [Tokenizer.Next, he] using hpost
      · cases post with
        | nil => simp [Tokenizer.Next, he]
        | cons u us =>
          simp only [Tokenizer.Next, he, decide_False]
          intro t ht
          exact hpost t (List.mem_cons_of_mem _ ht)
  | cons t pre ih =>
    intro cur a out hcur hpre
    have herr : ¬ (Tokenizer.Err ⟨cur, false, t :: pre ++ tag :: next :: post⟩ = true) := by
      simp [Tokenizer.Err]
    have ht := hpre t (List.mem_cons_self _ _)
    rw [tokenLoop_unfold, if_neg herr,
      if_neg (TagName_not_textarea ⟨cur, false, t :: pre ++ tag :: next :: post⟩ hcur)]
    have hn : Tokenizer.Next ⟨cur, false, t :: pre ++ tag :: next :: post⟩
        = ⟨t, false, pre ++ tag :: next :: post⟩ := by
      simp [Tokenizer.Next, ht.1]
    rw [hn]
    exact ih t a out ht.2 (fun u hu => hpre u (List.mem_cons_of_mem _ hu))

/-- The extraction on a document with one `textarea` tag carrying
attributes returns the raw bytes of the token that follows the tag: the
content of the `textarea` when the tokenizer delivers it as a text token. -/
theorem extractFrom_one_textarea (pre post : List Token) (tag next : Token)
    (hpre : ∀ t ∈ pre,
      t.tt ≠ .ErrorToken ∧ ¬ (t.tagName = ascii "textarea" ∧ t.hasAttr = true))
    (htag : (tag.tt = .StartTagToken ∨ tag.tt = .SelfClosingTagToken) ∧
      tag.tagName = ascii "textarea" ∧ tag.hasAttr = true)
    (hpost : ∀ t ∈ post, ¬ (t.tagName = ascii "textarea" ∧ t.hasAttr = true)) :
    extractFrom (pre ++ tag :: next :: post) = next.raw :=
  tokenLoop_one_textarea tag next post htag hpost pre errorToken [] []
    (by simp [errorToken, ascii]) hpre

/-! ### The orchestrator -/

/-- C2: in the loop of `main`, for a node whose count comes back as the
string `0`, the iteration consists of the count call with its request and the
report line; it contains no call of `GetNodeConfigFileID` or
`GetNodeConfigFileBody`; the node is returned with `ConfigCount` set; and the
loop goes on with the next node from the state the count request left. -/
theorem zero_count_skips {σ : Type} (validURL : GoString → Bool) (cfg : Config)
    (srv : Server σ) (st : σ)
    (Session : List GoString) (IPAddress : GoString) (node : OrionNode)
    (nodes : List OrionNode)
    (h0 : (GetNodeConfigCount cfg srv st Session IPAddress
      (stringCleaning node.NodeID)).result = .ok (ascii "0")) :
    (processNode validURL cfg srv st Session IPAddress node).trace =
      [.call .GetNodeConfigCount (stringCleaning node.NodeID),
       .http (countRequest cfg Session IPAddress (stringCleaning node.NodeID)),
       .println [.text (ascii "No config files found on " ++ node.Name)]] ∧
    (∀ e ∈ (processNode validURL cfg srv st Session IPAddress node).trace,
      e.isCallTo .GetNodeConfigFileID = false ∧ e.isCallTo .GetNodeConfigFileBody = false ∧
      e.isGET = false) ∧
    (processNode validURL cfg srv st Session IPAddress node).result
      = .ok { node with ConfigCount := ascii "0" } ∧
    (mainLoop validURL cfg srv Session IPAddress (node :: nodes) st).trace =
      (processNode validURL cfg srv st Session IPAddress node).trace ++
      (mainLoop validURL cfg srv Session IPAddress nodes
        (srv st (countRequest cfg Session IPAddress (stringCleaning node.NodeID))).2).trace ∧
    (mainLoop validURL cfg srv Session IPAddress (node :: nodes) st).result =
      (mainLoop validURL cfg srv Session IPAddress nodes
        (srv st (countRequest cfg Session IPAddress (stringCleaning node.NodeID))).2).result.map
        (fun ns => { node with ConfigCount := ascii "0" } :: ns) := by
  have hp : processNode validURL cfg srv st Session IPAddress node =
      ⟨[.call .GetNodeConfigCount (stringCleaning node.NodeID),
        .http (countRequest cfg Session IPAddress (stringCleaning node.NodeID)),
        .println [.text (ascii "No config files found on " ++ node.Name)]],
       (srv st (countRequest cfg Session IPAddress (stringCleaning node.NodeID))).2,
       .ok { node with ConfigCount := ascii "0" }⟩ := by
    simp only [processNode, h0]
    simp [GetNodeConfigCount]
  refine ⟨by rw [hp], ?_, by rw [hp], ?_, ?_⟩
  · rw [hp]
    intro e he
    simp only [List.mem_cons, List.mem_singleton, List.not_mem_nil, or_false] at he
    rcases he with rfl | rfl | rfl <;> simp [Event.isCallTo, Event.isGET, countRequest]
  · simp only [mainLoop, hp]
  · simp only [mainLoop, hp]

/-- C2 on a console that reports the count `0` for every node: the
hypothesis holds for the first of two nodes, its iteration is the count call
and the report, and the loop goes on to the second node and ends normally. -/
theorem zero_count_skips_witness :
    (GetNodeConfigCount sampleConfig (routedServer (countResponse (ascii "0")) .null []) () []
      (ascii "10.0.0.9") (stringCleaning ciscoNode.NodeID)).result = .ok (ascii "0") ∧
    (processNode acceptAll sampleConfig (routedServer (countResponse (ascii "0")) .null []) () []
      (ascii "10.0.0.9") ciscoNode).trace =
      [.call .GetNodeConfigCount (ascii "5"),
       .http (countRequest sampleConfig [] (ascii "10.0.0.9") (ascii "5")),
       .println [.text (ascii "No config files found on \"RouterA\"")]] ∧
    (mainLoop acceptAll sampleConfig (routedServer (countResponse (ascii "0")) .null []) []
      (ascii "10.0.0.9") [ciscoNode, secondNode] ()).result =
      .ok [{ ciscoNode with ConfigCount := ascii "0" },
           { secondNode with ConfigCount := ascii "0" }] :=
  ⟨rfl,
   (zero_count_skips acceptAll sampleConfig (routedServer (countResponse (ascii "0")) .null []) () []
      (ascii "10.0.0.9") ciscoNode [secondNode] rfl).1,
   rfl⟩

/-- The token loop adds only printed lines to the events. -/
theorem tokenLoopFuel_trace :
    ∀ (n : Nat) (z : Tokenizer) (a : GoString) (out : List Event) (r : List Event × GoString),
      tokenLoopFuel n z a out = some r →
      ∃ ps, r.1 = out ++ ps ∧
        ∀ e ∈ ps, (∀ fn, e.isCallTo fn = false) ∧ e.isGET = false := by
  intro n
  induction n with
  | zero =>
    intro z a out r h
    by_cases hz : z.Err = true
    · simp only [tokenLoopFuel, hz, if_true] at h
      refine ⟨[], ?_, by simp⟩
      rw [← Option.some.inj h]
      simp
    · simp [tokenLoopFuel, hz] at h
  | succ n ih =>
    intro z a out r h
    rw [tokenLoopFuel_succ] at h
    by_cases hz : z.Err = true
    · rw [if_pos hz] at h
      refine ⟨[], ?_, by simp⟩
      rw [← Option.some.inj h]
      simp
    · rw [if_neg hz] at h
      by_cases hq : z.TagName.1 = ascii "textarea" ∧ z.TagName.2 = true
      · rw [if_pos hq] at h
        obtain ⟨ps, hps, hall⟩ := ih _ _ _ _ h
        refine ⟨.println [.text z.Next.Raw] :: ps, ?_, ?_⟩
        · rw [hps]; simp
        · intro e he
          rcases List.mem_cons.mp he with rfl | he
          · simp [Event.isCallTo, Event.isGET]
          · exact hall e he
      · rw [if_neg hq] at h
        exact ih _ _ _ _ h

/-- The token loop run to its end adds only printed lines to the events. -/
theorem tokenLoop_trace (z : Tokenizer) (a : GoString) (out : List Event) :
    ∃ ps, (tokenLoop z a out).1 = out ++ ps ∧
      ∀ e ∈ ps, (∀ fn, e.isCallTo fn = false) ∧ e.isGET = false :=
  tokenLoopFuel_trace _ _ _ _ _ (tokenLoopFuel_eq_tokenLoop z.fuel z a out (le_refl _))

/-- The events of a `GetNodeConfigFileBody` that has sent its request are one
call event, one GET, and printed lines. -/
theorem GetNodeConfigFileBody_trace {σ : Type} (validURL : GoString → Bool) (cfg : Config)
    (srv : Server σ) (st : σ)
    (Session : List GoString) (IPAddress ConfigFileID : GoString)
    (hacc : newRequestAccepts validURL
      (bodyRequest cfg Session IPAddress ConfigFileID).uri = true) :
    ∃ ps, (GetNodeConfigFileBody validURL cfg srv st Session IPAddress ConfigFileID).trace =
        [.call .GetNodeConfigFileBody ConfigFileID,
         .http (bodyRequest cfg Session IPAddress ConfigFileID)] ++ ps ∧
      ∀ e ∈ ps, (∀ fn, e.isCallTo fn = false) ∧ e.isGET = false := by
  obtain ⟨ps, hps, hall⟩ := tokenLoop_trace
    (NewTokenizer (srv st (bodyRequest cfg Session IPAddress ConfigFileID)).1.tokens) []
    [.call .GetNodeConfigFileBody ConfigFileID,
     .http (bodyRequest cfg Session IPAddress ConfigFileID)]
  rw [GetNodeConfigFileBody_accepted validURL cfg srv st Session IPAddress ConfigFileID hacc]
  exact ⟨ps, hps, hall⟩

/-- A list of events none of which passes a test is filtered to nothing. -/
theorem filter_none (p : Event → Bool) (ps : List Event) (h : ∀ e ∈ ps, p e = false) :
    ps.filter p = [] := by
  rw [List.filter_eq_nil_iff]
  intro e he
  simp [h e he]

/-- C3, amended: for a node whose count is not `0` and whose file id is not
`{}`, the iteration of the loop of `main` contains exactly one call of
`GetNodeConfigFileBody`, with that file id.  When `http.NewRequest` accepts
the URL string of the call, the iteration hands exactly one GET request to
the HTTP client, that of the call, and ends without a panic; the URL string
from which the request is made is that of the export endpoint with the file
id between braces when the flag `-m` is set, and that of the edit endpoint
followed by the file id when it is not. -/
theorem one_extraction {σ : Type} (validURL : GoString → Bool) (cfg : Config)
    (srv : Server σ) (st : σ)
    (Session : List GoString) (IPAddress : GoString) (node : OrionNode)
    (count fileID : GoString)
    (hc : (GetNodeConfigCount cfg srv st Session IPAddress
      (stringCleaning node.NodeID)).result = .ok count)
    (hc0 : count ≠ ascii "0")
    (hf : (GetNodeConfigFileID cfg srv
      (GetNodeConfigCount cfg srv st Session IPAddress (stringCleaning node.NodeID)).state
      Session IPAddress (stringCleaning node.NodeID)).result = .ok fileID)
    (hf0 : fileID ≠ ascii "\x7b\x7d") :
    (processNode validURL cfg srv st Session IPAddress node).trace.filter
        (Event.isCallTo .GetNodeConfigFileBody)
      = [.call .GetNodeConfigFileBody fileID] ∧
    (newRequestAccepts validURL (bodyRequest cfg Session IPAddress fileID).uri = true →
      (processNode validURL cfg srv st Session IPAddress node).trace.filter Event.isGET
        = [.http (bodyRequest cfg Session IPAddress fileID)] ∧
      (processNode validURL cfg srv st Session IPAddress node).result
        = .ok { node with ConfigCount := count, NodeConfigFileID := fileID }) ∧
    (bodyRequest cfg Session IPAddress fileID).method = .GET ∧
    (cfg.extractionMethod = true →
      (bodyRequest cfg Session IPAddress fileID).uri =
        cfg.URIHandler ++ IPAddress ++
          ascii "/Orion/NCM/Resources/NCMConfigDetails/ConfigExporter.ashx?configID=\x7b" ++
          fileID ++ ascii "\x7d") ∧
    (cfg.extractionMethod = false →
      (bodyRequest cfg Session IPAddress fileID).uri =
        cfg.URIHandler ++ IPAddress ++
          ascii "/Orion/NCM/Resources/Configs/EditConfig.aspx?ConfigID=" ++ fileID) := by
  have hm1 : ∀ x, (countRequest cfg Session IPAddress x).method = .POST := fun _ => rfl
  have hm2 : ∀ x, (fileIDRequest cfg Session IPAddress x).method = .POST := fun _ => rfl
  have hm3 : ∀ x, (bodyRequest cfg Session IPAddress x).method = .GET := fun _ => rfl
  refine ⟨?_, ?_, rfl, ?_, ?_⟩
  · by_cases hacc : newRequestAccepts validURL
        (bodyRequest cfg Session IPAddress fileID).uri = true
    · obtain ⟨ps, hps, hall⟩ := tokenLoop_trace
        (NewTokenizer (srv
          (srv (srv st (countRequest cfg Session IPAddress (stringCleaning node.NodeID))).2
            (fileIDRequest cfg Session IPAddress (stringCleaning node.NodeID))).2
          (bodyRequest cfg Session IPAddress fileID)).1.tokens) []
        [.call .GetNodeConfigFileBody fileID,
         .http (bodyRequest cfg Session IPAddress fileID)]
      have hcall : ps.filter (Event.isCallTo .GetNodeConfigFileBody) = [] :=
        filter_none _ ps (fun e he => (hall e he).1 _)
      have hbody := fun s2 =>
        GetNodeConfigFileBody_accepted validURL cfg srv s2 Session IPAddress fileID hacc
      simp only [processNode, hc, hf, hc0, hf0, ne_eq, not_false_eq_true, if_true, hbody]
      cases cfg.exportContent <;>
        simp [hps, hcall, List.filter_append, Event.isCallTo, GetNodeConfigCount,
          GetNodeConfigFileID]
    · have hrej : newRequestAccepts validURL
          (bodyRequest cfg Session IPAddress fileID).uri = false := by
        simpa using hacc
      have hbody := fun s2 =>
        GetNodeConfigFileBody_rejected validURL cfg srv s2 Session IPAddress fileID hrej
      simp only [processNode, hc, hf, hc0, hf0, ne_eq, not_false_eq_true, if_true, hbody]
      simp [List.filter_append, Event.isCallTo, GetNodeConfigCount, GetNodeConfigFileID]
  · intro hacc
    obtain ⟨ps, hps, hall⟩ := tokenLoop_trace
      (NewTokenizer (srv
        (srv (srv st (countRequest cfg Session IPAddress (stringCleaning node.NodeID))).2
          (fileIDRequest cfg Session IPAddress (stringCleaning node.NodeID))).2
        (bodyRequest cfg Session IPAddress fileID)).1.tokens) []
      [.call .GetNodeConfigFileBody fileID,
       .http (bodyRequest cfg Session IPAddress fileID)]
    have hget : ps.filter Event.isGET = [] := filter_none _ ps (fun e he => (hall e he).2)
    have hbody := fun s2 =>
      GetNodeConfigFileBody_accepted validURL cfg srv s2 Session IPAddress fileID hacc
    constructor
    · simp only [processNode, hc, hf, hc0, hf0, ne_eq, not_false_eq_true, if_true, hbody]
      cases cfg.exportContent <;>
        simp [hps, hget, List.filter_append, Event.isGET, GetNodeConfigCount,
          GetNodeConfigFileID, hm1, hm2, hm3]
    · simp only [processNode, hc, hf, hc0, hf0, ne_eq, not_false_eq_true, if_true, hbody]
      cases cfg.exportContent <;> simp
  · intro hm
    simp [bodyRequest, hm]
  · intro hm
    simp [bodyRequest, hm]

/-- C3 on a console that reports three configurations and the file id
`abc-123` for the node of the specification's example, in edit mode: the
hypotheses hold, the URL string has no control byte, the iteration contains
one call of `GetNodeConfigFileBody` and one GET, made from the URL string of
the edit endpoint followed by the file id; with the flag `-m` set the URL
string is that of the export endpoint, the file id between braces. -/
theorem one_extraction_witness :
    ((GetNodeConfigCount sampleConfig
        (routedServer (countResponse (ascii "3"))
          (fileIDResponse [.array [.string (ascii "abc-123")]]) fixtureTokens) () []
        (ascii "10.0.0.9") (stringCleaning ciscoNode.NodeID)).result = .ok (ascii "3") ∧
      ascii "3" ≠ ascii "0" ∧
      (GetNodeConfigFileID sampleConfig
        (routedServer (countResponse (ascii "3"))
          (fileIDResponse [.array [.string (ascii "abc-123")]]) fixtureTokens) () []
        (ascii "10.0.0.9") (stringCleaning ciscoNode.NodeID)).result = .ok (ascii "abc-123") ∧
      ascii "abc-123" ≠ ascii "\x7b\x7d" ∧
      newRequestAccepts acceptAll
        (bodyRequest sampleConfig [] (ascii "10.0.0.9") (ascii "abc-123")).uri = true) ∧
    (processNode acceptAll sampleConfig
        (routedServer (countResponse (ascii "3"))
          (fileIDResponse [.array [.string (ascii "abc-123")]]) fixtureTokens) () []
        (ascii "10.0.0.9") ciscoNode).trace.filter (Event.isCallTo .GetNodeConfigFileBody)
      = [.call .GetNodeConfigFileBody (ascii "abc-123")] ∧
    (processNode acceptAll sampleConfig
        (routedServer (countResponse (ascii "3"))
          (fileIDResponse [.array [.string (ascii "abc-123")]]) fixtureTokens) () []
        (ascii "10.0.0.9") ciscoNode).trace.filter Event.isGET
      = [.http (bodyRequest sampleConfig [] (ascii "10.0.0.9") (ascii "abc-123"))] ∧
    (bodyRequest sampleConfig [] (ascii "10.0.0.9") (ascii "abc-123")).uri
      = ascii "http://10.0.0.9/Orion/NCM/Resources/Configs/EditConfig.aspx?ConfigID=abc-123" ∧
    (bodyRequest ⟨ascii "http://", true, false⟩ [] (ascii "10.0.0.9") (ascii "abc-123")).uri
      = ascii
        "http://10.0.0.9/Orion/NCM/Resources/NCMConfigDetails/ConfigExporter.ashx?configID=\x7babc-123\x7d" := by
  have hacc : newRequestAccepts acceptAll
      (bodyRequest sampleConfig [] (ascii "10.0.0.9") (ascii "abc-123")).uri = true := by
    decide
  have h := one_extraction acceptAll sampleConfig
    (routedServer (countResponse (ascii "3"))
      (fileIDResponse [.array [.string (ascii "abc-123")]]) fixtureTokens) () []
    (ascii "10.0.0.9") ciscoNode (ascii "3") (ascii "abc-123") rfl (by decide) rfl (by decide)
  exact ⟨⟨rfl, by decide, rfl, by decide, hacc⟩, h.1, (h.2.1 hacc).1, by decide, by decide⟩

/-- C3 fails for the file id `a\nb` (three bytes, the second a line feed):
the count is `3`, the file id is not `{}`, and the URL string built from it
has a control byte, so whatever the other checks of `net/url` are,
`http.NewRequest` returns `nil`, line 260 panics on it, and the iteration of
the loop of `main` contains the call of `GetNodeConfigFileBody` and no GET
at all.  And for the file id `a#b` the part of the URL string that
`url.Parse` keeps before the fragment ends with `ConfigID=a`: the file id is
not what follows the endpoint in the URL that is requested. -/
theorem one_extraction_counterexample :
    ((GetNodeConfigCount sampleConfig
        (routedServer (countResponse (ascii "3"))
          (fileIDResponse [.array [.string (ascii "a\nb")]]) fixtureTokens) () []
        (ascii "10.0.0.9") (stringCleaning ciscoNode.NodeID)).result = .ok (ascii "3") ∧
      ascii "3" ≠ ascii "0" ∧
      (GetNodeConfigFileID sampleConfig
        (routedServer (countResponse (ascii "3"))
          (fileIDResponse [.array [.string (ascii "a\nb")]]) fixtureTokens) () []
        (ascii "10.0.0.9") (stringCleaning ciscoNode.NodeID)).result = .ok (ascii "a\nb") ∧
      ascii "a\nb" ≠ ascii "\x7b\x7d") ∧
    (bodyRequest sampleConfig [] (ascii "10.0.0.9") (ascii "a\nb")).uri
      = ascii "http://10.0.0.9/Orion/NCM/Resources/Configs/EditConfig.aspx?ConfigID=a\nb" ∧
    beforeFragment (bodyRequest sampleConfig [] (ascii "10.0.0.9") (ascii "a#b")).uri
      = ascii "http://10.0.0.9/Orion/NCM/Resources/Configs/EditConfig.aspx?ConfigID=a" ∧
    ∀ validURL : GoString → Bool,
      newRequestAccepts validURL
        (bodyRequest sampleConfig [] (ascii "10.0.0.9") (ascii "a\nb")).uri = false ∧
      (processNode validURL sampleConfig
          (routedServer (countResponse (ascii "3"))
            (fileIDResponse [.array [.string (ascii "a\nb")]]) fixtureTokens) () []
          (ascii "10.0.0.9") ciscoNode).trace.filter Event.isGET = [] ∧
      (processNode validURL sampleConfig
          (routedServer (countResponse (ascii "3"))
            (fileIDResponse [.array [.string (ascii "a\nb")]]) fixtureTokens) () []
          (ascii "10.0.0.9") ciscoNode).trace.filter (Event.isCallTo .GetNodeConfigFileBody)
        = [.call .GetNodeConfigFileBody (ascii "a\nb")] ∧
      (processNode validURL sampleConfig
          (routedServer (countResponse (ascii "3"))
            (fileIDResponse [.array [.string (ascii "a\nb")]]) fixtureTokens) () []
          (ascii "10.0.0.9") ciscoNode).result = .error .nilDereference := by
  refine ⟨⟨rfl, by decide, rfl, by decide⟩, by decide, by decide,
    fun validURL => ⟨rfl, rfl, rfl, rfl⟩⟩

/-- C8 fails on the response `{"d":{"DataTable":{"Rows":[]}}}`: the
index expression `configFileIDs[0]` of line 241 panics, so
`GetNodeConfigFileID` returns nothing to its caller; the panic ends the loop
of `main` in the iteration of the first node, after the file-id request, and
the second node is never processed. -/
theorem empty_rows_panic :
    configFileIDOf (fileIDResponse []) = .error .indexOutOfRange ∧
    (GetNodeConfigFileID sampleConfig
      (routedServer (countResponse (ascii "3")) (fileIDResponse []) fixtureTokens) () []
      (ascii "10.0.0.9") (ascii "5")).result = .error .indexOutOfRange ∧
    (mainLoop acceptAll sampleConfig
      (routedServer (countResponse (ascii "3")) (fileIDResponse []) fixtureTokens) []
      (ascii "10.0.0.9") [ciscoNode, secondNode] ()).result = .error .indexOutOfRange ∧
    (mainLoop acceptAll sampleConfig
      (routedServer (countResponse (ascii "3")) (fileIDResponse []) fixtureTokens) []
      (ascii "10.0.0.9") [ciscoNode, secondNode] ()).trace =
      [.call .GetNodeConfigCount (ascii "5"),
       .http (countRequest sampleConfig [] (ascii "10.0.0.9") (ascii "5")),
       .println [.text []],
       .println [.text (ascii "Retrieving config file from \"RouterA\"")],
       .call .GetNodeConfigFileID (ascii "5"),
       .http (fileIDRequest sampleConfig [] (ascii "10.0.0.9") (ascii "5"))] := by
  refine ⟨rfl, rfl, rfl, rfl⟩

end NcmDump
